import Mathlib

/-
Shallow embedding of src/dhv_pdf_to_anki/extract_questions.py (the
layout-driven question extractor) and proofs about it.

Modelling conventions:
- Python strings are embedded as lists of characters (Str below).
- PDF coordinates (floating point in PyMuPDF) are embedded as integers:
  the extractor only compares, adds and subtracts coordinates, so the
  ordered-ring fragment it actually uses is modelled exactly.
- Fill colours (normalized RGB float triples) are embedded as natural
  number triples scaled by 10^16; the extractor only tests colours for
  exact equality, so any injective encoding of the float values is
  faithful: 0.8429999947547913 becomes 8429999947547913 and
  0.921999990940094 becomes 9219999909400940.
- The mutable extraction state of extract_questions_from_pdf is threaded
  explicitly (ExtractSt); a Python exception becomes Except.error with
  the corresponding message.
- The filesystem touched by save_question_image is a list of
  (path, content) pairs; the rendered pixmap is represented by the page
  index and clip rectangle that fully determine it.
-/

abbrev Str := List Char

/-- Python str whitespace characters (the ASCII ones produced by a PDF
text layer; str.strip and the regex class backslash-s use this set). -/
def isWs (c : Char) : Bool :=
  c = ' ' ∨ c = '\n' ∨ c = '\t' ∨ c = '\r' ∨ c = '\x0b' ∨ c = '\x0c'

/-- Python str.strip(): drop leading and trailing whitespace. -/
def strip (s : Str) : Str :=
  ((s.dropWhile isWs).reverse.dropWhile isWs).reverse

/-- Python s.split(chr(10)): split at every newline, keeping empty
segments (the result is always nonempty). -/
def splitNl : Str → List Str
  | [] => [[]]
  | c :: rest =>
    if c = '\n' then [] :: splitNl rest
    else
      match splitNl rest with
      | s :: ss => (c :: s) :: ss
      | [] => [[c]]

/-- Python line.replace(chr(10), chr(32)). -/
def replaceNl (s : Str) : Str :=
  s.map (fun c => if c = '\n' then ' ' else c)

/-- Does s start with the pattern p? -/
def startsW : Str → Str → Bool
  | _, [] => true
  | [], _ :: _ => false
  | c :: s, d :: p => c = d ∧ startsW s p

/-- Length of the maximal leading run of decimal digits. -/
def digitRun : Str → Nat
  | [] => 0
  | c :: rest => if c.isDigit then digitRun rest + 1 else 0

/-- Length of a match of the regex "Seite (backslash-d+) von
(backslash-d+)" anchored at the start of s, if any.  Both digit runs are
maximal: shortening the first run would put a digit where the space of
" von " must be, so backtracking can never produce a different match. -/
def footLen (s : Str) : Option Nat :=
  if startsW s (("Seite ").data) then
    let t1 := s.drop 6
    let k1 := digitRun t1
    if k1 = 0 then none
    else
      let t2 := t1.drop k1
      if startsW t2 ((" von ").data) then
        let t3 := t2.drop 5
        let k2 := digitRun t3
        if k2 = 0 then none else some (6 + k1 + 5 + k2)
      else none
  else none

/-- Does the page-footer pattern match anywhere in s?  This is the
presence test behind re.findall(r'Seite (d+) von d+', text) at line 54
of extract_questions.py: the extractor indexes results[0], so only
emptiness of the match list matters for control flow. -/
def hasFooter : Str → Bool
  | [] => false
  | c :: rest => (footLen (c :: rest)).isSome || hasFooter rest

/-- Python re.sub(r'Seite d+ von d+', '', line), written with explicit
fuel so that the kernel can evaluate it (subFooter passes enough fuel,
see subFooterGo_fuel): scan left to right, delete each non-overlapping
match, continue scanning after the end of the deleted match (the output
is not rescanned). -/
def subFooterGo : Nat → Str → Str
  | 0, s => s
  | _ + 1, [] => []
  | fuel + 1, c :: rest =>
    match footLen (c :: rest) with
    | some k => subFooterGo fuel (rest.drop (k - 1))
    | none => c :: subFooterGo fuel rest

/-- Footer removal at line 77 / line 96 of extract_questions.py. -/
def subFooter (s : Str) : Str := subFooterGo s.length s

/-- Python re.sub(r's s+', ' ', line) with s the whitespace class,
with explicit fuel for kernel evaluation: replace every run of two or
more whitespace characters by one space; a lone whitespace character is
left as it is. -/
def collapseWsGo : Nat → Str → Str
  | 0, s => s
  | _ + 1, [] => []
  | fuel + 1, c :: rest =>
    if isWs c then
      match rest with
      | [] => [c]
      | d :: _ =>
        if isWs d then ' ' :: collapseWsGo fuel (rest.dropWhile isWs)
        else c :: collapseWsGo fuel rest
    else c :: collapseWsGo fuel rest

/-- Whitespace collapsing at line 79 / line 98 of extract_questions.py. -/
def collapseWs (s : Str) : Str := collapseWsGo s.length s

/-- Python line.split(sep, 1) when it succeeds: the part before the
first occurrence of sep and the part after it; none when sep does not
occur (in which case Python's two-target unpacking raises ValueError). -/
def splitOnce (sep : Str) : Str → Option (Str × Str)
  | [] => none
  | c :: rest =>
    if startsW (c :: rest) sep then some ([], (c :: rest).drop sep.length)
    else
      match splitOnce sep rest with
      | some (pre, post) => some (c :: pre, post)
      | none => none

/-- Python s.replace(pat, ''), with explicit fuel for kernel
evaluation: delete every non-overlapping occurrence of pat, scanning
left to right.  Only used with the nonempty pattern "Abbildung ". -/
def removeAllGo (pat : Str) : Nat → Str → Str
  | 0, s => s
  | _ + 1, [] => []
  | fuel + 1, c :: rest =>
    if startsW (c :: rest) pat then
      removeAllGo pat fuel (rest.drop (pat.length - 1))
    else c :: removeAllGo pat fuel rest

/-- Removal of the literal "Abbildung " at lines 84-85. -/
def removeAll (pat : Str) (s : Str) : Str := removeAllGo pat s.length s

/-- The lookahead of the split regex at line 62 of extract_questions.py:
at a position right after a newline, try (in the regex's alternation
order) three digits, two digits, one digit, or one letter of ABCD, each
followed by a closing parenthesis and at least one space.  Returns the
captured token.  At most one alternative can succeed because the
character right after the digits must be the parenthesis. -/
def delimAt (cs : Str) : Option Str :=
  let g := fun i => cs.getD i '\x00'
  if (g 0).isDigit ∧ (g 1).isDigit ∧ (g 2).isDigit ∧ g 3 = ')' ∧ g 4 = ' ' then
    some (cs.take 3)
  else if (g 0).isDigit ∧ (g 1).isDigit ∧ g 2 = ')' ∧ g 3 = ' ' then
    some (cs.take 2)
  else if (g 0).isDigit ∧ g 1 = ')' ∧ g 2 = ' ' then
    some (cs.take 1)
  else if (g 0 = 'A' ∨ g 0 = 'B' ∨ g 0 = 'C' ∨ g 0 = 'D') ∧ g 1 = ')' ∧ g 2 = ' ' then
    some (cs.take 1)
  else none

/-- Python re.split(r'n(?=(ddd|dd|d|[ABCD])) +)', text) (with n the
newline): the newline before each delimiter is consumed, the captured
token is inserted between the surrounding segments, and the token
itself also starts the following segment (it sits inside a lookahead).
The result alternates segment, token, segment, token, ..., segment. -/
def splitRaw : Str → List Str
  | [] => [[]]
  | c :: rest =>
    if c = '\n' then
      match delimAt rest with
      | some tok => [] :: tok :: splitRaw rest
      | none =>
        match splitRaw rest with
        | s :: ss => (c :: s) :: ss
        | [] => [[c]]
    else
      match splitRaw rest with
      | s :: ss => (c :: s) :: ss
      | [] => [[c]]

/-- Lines 61-62 of extract_questions.py: the split result with every
element of length exactly one removed. -/
def pageLines (text : Str) : List Str :=
  (splitRaw text).filter (fun l => l.length ≠ 1)

/-- Regex check at line 66: re.match(r"^[0-9]+) ", line.strip()) — one
or more digits then a closing parenthesis and a space.  The digit run
is maximal: a shorter run would have to be followed by the parenthesis,
which is impossible since the next character is still a digit. -/
def isQLine (s : Str) : Bool :=
  digitRun s ≠ 0 ∧ startsW (s.drop (digitRun s)) ((") ").data)

/-- Regex check at line 91: re.match(r"[ABCD]) ", line.strip()) —
re.match anchors at the start of the string. -/
def isALine (s : Str) : Bool :=
  match s with
  | c :: rest => (c = 'A' ∨ c = 'B' ∨ c = 'C' ∨ c = 'D') ∧ startsW rest ((") ").data)
  | [] => false

/-- A PyMuPDF rectangle (x0, y0, x1, y1), coordinates embedded as
integers (see the header comment). -/
structure Rect where
  x0 : Int
  y0 : Int
  x1 : Int
  y1 : Int
deriving DecidableEq

/-- One entry of page.get_drawings(): its 'type' string ("fs" for
stroked+filled, "f" for filled-only, anything else otherwise), its
bounding rectangle and its optional fill colour (scaled integer
triple, see the header comment). -/
structure Drawing where
  type : Str
  rect : Rect
  fill : Option (Nat × Nat × Nat)
deriving DecidableEq

/-- One page of the document: its extracted text, its drawings, the
page.search_for text-locating primitive, and the page rectangle's width
and height (used when clipping the question image). -/
structure Page where
  text : Str
  drawings : List Drawing
  searchFor : Str → List Rect
  width : Int
  height : Int

/-- The open document: an ordered list of pages. -/
structure Doc where
  pages : List Page

/-- One extracted question record, mirroring the dict appended at
lines 86-87.  The Python keys "section"/"subsection" are Lean keywords
and are embedded as sectionTxt/subsectionTxt. -/
structure Question where
  sectionTxt : Option Str
  subsectionTxt : Option Str
  question : Str
  answers : List (Str × Str)
  correct : List Str
  abbildung : Option Str
  id : Str
  section_id : Nat
  subsection_id : Nat
  page : Nat
  image_path : Option Str
deriving DecidableEq

/-- The filesystem written by save_question_image: file path mapped to
the page index and clip rectangle that determine the rendered image. -/
abbrev FS := List (Str × (Nat × Rect))

/-- Arguments save_images / images_dir of extract_questions_from_pdf. -/
structure Config where
  save_images : Bool
  images_dir : Str

/-- The running mutable state of one extraction pass (lines 34-50).
hasCurrent embeds "current_question_data is not None"; whenever it is
true the current question is the last element of questions, exactly as
the Python reference into the list. -/
structure ExtractSt where
  questions : List Question
  fs : FS
  section_id : Nat
  subsection_id : Nat
  current_section : Option Str
  current_subsection : Option Str
  question_bbox : List Rect
  hasCurrent : Bool
  answer_bboxes : List Rect
  page_num : Nat
deriving DecidableEq

/-- vertical_margin = 4 at line 19. -/
def vertical_margin : Int := 4

/-- Python abs on a coordinate difference. -/
def intAbs (n : Int) : Int := if n < 0 then -n else n

/-- Python min of two coordinates. -/
def imin (a b : Int) : Int := if a ≤ b then a else b

/-- Python max of two coordinates. -/
def imax (a b : Int) : Int := if b ≤ a then a else b

/-- The outer position test at lines 120-123: the answer box's whole
vertical span lies within the drawing rectangle's span extended by the
margin on both sides. -/
def yAligned (rect b : Rect) : Bool :=
  rect.y0 - vertical_margin ≤ b.y0 ∧ b.y0 ≤ rect.y1 + vertical_margin ∧
  rect.y0 - vertical_margin ≤ b.y1 ∧ b.y1 ≤ rect.y1 + vertical_margin

/-- The inner position test at line 124: the rectangle's right edge is
at or before the box's left edge and the top edges are within the
margin of each other (strict comparison in the source). -/
def leftOf (rect b : Rect) : Bool :=
  rect.x1 ≤ b.x0 ∧ intAbs (rect.y0 - b.y0) < vertical_margin

/-- The banner containment test at lines 146-148 / 157-159: only the
top-left corner (x0, y0) of the text's bbox is required to lie inside
the drawing's rectangle. -/
def containsTL (rect b : Rect) : Bool :=
  rect.x0 ≤ b.x0 ∧ b.x0 ≤ rect.x1 ∧ rect.y0 ≤ b.y0 ∧ b.y0 ≤ rect.y1

/-- The darker gray section-banner fill at line 142 (scaled encoding of
(0.8429999947547913, 0.8429999947547913, 0.8429999947547913)). -/
def darkFill : Nat × Nat × Nat :=
  (8429999947547913, 8429999947547913, 8429999947547913)

/-- The lighter gray subsection-banner fill at line 154 (scaled
encoding of (0.921999990940094, 0.921999990940094, 0.921999990940094)). -/
def lightFill : Nat × Nat × Nat :=
  (9219999909400940, 9219999909400940, 9219999909400940)

/-- The fatal error message raised at lines 128-129. -/
def multiCorrectMsg (id : Str) : Str :=
  ("Multiple correct answers found for question ").data ++ id

/-- Message of a Python IndexError on list indexing. -/
def indexErrMsg : Str := ("list index out of range").data

/-- Message of a Python ValueError on failed tuple unpacking. -/
def valueErrMsg : Str := ("not enough values to unpack").data

/-- Replace the last element of the question list (the Python code
mutates questions[-1] in place). -/
def updateLast (f : Question → Question) : List Question → List Question
  | [] => []
  | [q] => [f q]
  | q :: q' :: rest => q :: updateLast f (q' :: rest)

/-- Python dict assignment answers[code] = text: overwrite in place if
the key exists, else append (insertion order is preserved). -/
def assocSet (k v : Str) : List (Str × Str) → List (Str × Str)
  | [] => [(k, v)]
  | (k', v') :: rest =>
    if k' = k then (k, v) :: rest else (k', v') :: assocSet k v rest

/-- Lines 119-131 for a single drawing and a single answer bbox: if the
position tests pass and the fill is non-null, a second indicator for a
question that already has one is the fatal duplicate-mark error;
otherwise the answer code is appended to questions[-1]["correct"].
With no question appended yet, Python's questions[-1] raises
IndexError. -/
def correctStep (code : Str) (d : Drawing) (b : Rect) (qs : List Question) :
    Except Str (List Question) :=
  if yAligned d.rect b then
    if leftOf d.rect b then
      if d.fill.isSome then
        match qs.getLast? with
        | none => .error indexErrMsg
        | some q =>
          if q.correct ≠ [] then .error (multiCorrectMsg q.id)
          else .ok (updateLast (fun qq => { qq with correct := qq.correct ++ [code] }) qs)
      else .ok qs
    else .ok qs
  else .ok qs

/-- The inner loop "for bbox in answer_bbox" at line 119. -/
def correctBoxes (code : Str) (d : Drawing) : List Rect → List Question →
    Except Str (List Question)
  | [], qs => .ok qs
  | b :: bs, qs =>
    match correctStep code d b qs with
    | .error e => .error e
    | .ok qs' => correctBoxes code d bs qs'

/-- The outer loop "for drawing in drawings" at lines 115-131: only
drawings of type "fs" are examined. -/
def correctDrawings (code : Str) (abbox : List Rect) : List Drawing →
    List Question → Except Str (List Question)
  | [], qs => .ok qs
  | d :: ds, qs =>
    if d.type = ("fs").data then
      match correctBoxes code d abbox qs with
      | .error e => .error e
      | .ok qs' => correctDrawings code abbox ds qs'
    else correctDrawings code abbox ds qs

/-- Lines 136-165 for a single drawing: a filled-only drawing whose
fill equals one of the two gray swatches and whose rectangle contains
the top-left corner of some bbox of the line updates the section
(second-to-last newline segment of the stripped line, Python index -2,
IndexError when fewer than two segments) or the subsection (last
segment, always present).  The break at lines 153/165 only leaves the
inner bbox loop, so each matching drawing updates once. -/
def bannerStep (line : Str) (line_bbox : List Rect) (d : Drawing) (st : ExtractSt) :
    Except Str ExtractSt :=
  if d.type = ("f").data then
    let afterDark : Except Str ExtractSt :=
      if d.fill = some darkFill then
        if line_bbox.any (fun b => containsTL d.rect b) then
          let segs := splitNl (strip line)
          if segs.length < 2 then .error indexErrMsg
          else .ok { st with
            current_section := some (strip (segs.getD (segs.length - 2) []))
            section_id := st.section_id + 1 }
        else .ok st
      else .ok st
    match afterDark with
    | .error e => .error e
    | .ok st1 =>
      if d.fill = some lightFill then
        if line_bbox.any (fun b => containsTL d.rect b) then
          let segs := splitNl (strip line)
          .ok { st1 with
            current_subsection := some (strip (segs.getD (segs.length - 1) []))
            subsection_id := st1.subsection_id + 1 }
        else .ok st1
      else .ok st1
  else .ok st

/-- The loop over drawings at line 136. -/
def bannerDrawings (line : Str) (line_bbox : List Rect) : List Drawing →
    ExtractSt → Except Str ExtractSt
  | [], st => .ok st
  | d :: ds, st =>
    match bannerStep line line_bbox d st with
    | .error e => .error e
    | .ok st' => bannerDrawings line line_bbox ds st'

/-- Decimal digit character. -/
def digitChar (n : Nat) : Char := Char.ofNat (48 + n)

/-- Decimal rendering of a natural number, with fuel (fuel = n + 1 is
always enough since n shrinks by a factor of ten each step). -/
def natStrGo : Nat → Nat → Str → Str
  | 0, _, acc => acc
  | fuel + 1, n, acc =>
    if n < 10 then digitChar n :: acc
    else natStrGo fuel (n / 10) (digitChar (n % 10) :: acc)

/-- Python str() of a non-negative integer. -/
def natStr (n : Nat) : Str := natStrGo (n + 1) n []

/-- The image filename built at line 221:
question_s{section_id}_ss{subsection_id}_q{question_id}_p{page}.png,
with every component taken from the question record. -/
def imageFilename (q : Question) : Str :=
  ("question_s").data ++ natStr q.section_id ++ ("_ss").data ++
    natStr q.subsection_id ++ ("_q").data ++ q.id ++ ("_p").data ++
    natStr q.page ++ (".png").data

/-- pix.save(image_path): an unconditional filesystem write that
overwrites any existing file at the path. -/
def fsSet (path : Str) (content : Nat × Rect) (fs : FS) : FS :=
  if fs.any (fun e => e.1 = path) then
    fs.map (fun e => if e.1 = path then (path, content) else e)
  else fs ++ [(path, content)]

/-- Python min over a nonempty generator (first minimum wins). -/
def foldMinBy (f : Rect → Int) : Int → List Rect → Int
  | m, [] => m
  | m, r :: rs => foldMinBy f (imin m (f r)) rs

/-- min(f(bbox) for bbox in l); the empty case is unreachable behind
the nonemptiness guard of save_question_image. -/
def minOf (f : Rect → Int) : List Rect → Int
  | [] => 0
  | r :: rs => foldMinBy f (f r) rs

/-- Python max over a nonempty generator. -/
def foldMaxBy (f : Rect → Int) : Int → List Rect → Int
  | m, [] => m
  | m, r :: rs => foldMaxBy f (imax m (f r)) rs

/-- max(f(bbox) for bbox in l). -/
def maxOf (f : Rect → Int) : List Rect → Int
  | [] => 0
  | r :: rs => foldMaxBy f (f r) rs

/-- save_question_image (lines 174-231): guard on empty bbox lists,
load doc[page_num] (an out-of-range index raises and is swallowed by
the except block, leaving the filesystem untouched), take the union of
all bboxes, pad by 10 and clip to the page, render and write the image,
returning the new filesystem and the path stored into
question_data['image_path'] (none when nothing was written). -/
def save_question_image (doc : Doc) (question_bbox answer_bboxes : List Rect)
    (images_dir : Str) (page_num : Nat) (q : Question) (fs : FS) :
    FS × Option Str :=
  if question_bbox = [] ∨ answer_bboxes = [] then (fs, none)
  else
    match doc.pages.get? page_num with
    | none => (fs, none)
    | some page =>
      let all_bboxes := question_bbox ++ answer_bboxes
      let min_x0 := minOf (fun b => b.x0) all_bboxes
      let min_y0 := minOf (fun b => b.y0) all_bboxes
      let max_x1 := maxOf (fun b => b.x1) all_bboxes
      let max_y1 := maxOf (fun b => b.y1) all_bboxes
      let padding : Int := 10
      let rect : Rect := {
        x0 := imax 0 (min_x0 - padding)
        y0 := imax 0 (min_y0 - padding)
        x1 := imin page.width (max_x1 + padding)
        y1 := imin page.height (max_y1 + padding) }
      let image_path := images_dir ++ '/' :: imageFilename q
      (fsSet image_path (page_num, rect) fs, some image_path)

/-- The guarded call sites of save_question_image at lines 68-69 and
168-169: only when images are enabled, a current question exists and
both bbox collections are nonempty; afterwards image_path is stored on
the current question (which is always the last appended one). -/
def doSaveImage (cfg : Config) (doc : Doc) (st : ExtractSt) : ExtractSt :=
  if cfg.save_images ∧ st.hasCurrent ∧ st.answer_bboxes ≠ [] ∧ st.question_bbox ≠ [] then
    match st.questions.getLast? with
    | none => st
    | some q =>
      let res := save_question_image doc st.question_bbox st.answer_bboxes
        cfg.images_dir q.page q st.fs
      match res.2 with
      | some p =>
        { st with
          fs := res.1
          questions := updateLast (fun qq => { qq with image_path := some p }) st.questions }
      | none => { st with fs := res.1 }
  else st

/-- Lines 86-89: append the new question record stamped with the
current section/subsection context and locate its bbox on the page. -/
def appendQuestion (st : ExtractSt) (page : Page) (full_line body questionid : Str)
    (abb : Option Str) : ExtractSt :=
  let q : Question := {
    sectionTxt := st.current_section
    subsectionTxt := st.current_subsection
    question := strip body
    answers := []
    correct := []
    abbildung := abb
    id := strip questionid
    section_id := st.section_id
    subsection_id := st.subsection_id
    page := st.page_num - 1
    image_path := none }
  { st with
    questions := st.questions ++ [q]
    hasCurrent := true
    question_bbox := page.searchFor (strip full_line) }

/-- The question-line branch at lines 66-89: save the image of the
previous question, reset the answer bboxes, split off the question id,
strip footers, newlines and duplicate whitespace, peel off an optional
"Abbildung <n>: " and append the new record. -/
def processQuestionLine (cfg : Config) (doc : Doc) (page : Page) (st : ExtractSt)
    (line : Str) : Except Str ExtractSt :=
  let full_line := strip line
  let st := doSaveImage cfg doc st
  let st := { st with answer_bboxes := [] }
  match splitOnce ((") ").data) line with
  | none => .error valueErrMsg
  | some (questionid, body) =>
    let body := subFooter body
    let body := replaceNl body
    let body := collapseWs body
    if startsW body (("Abbildung ").data) then
      match splitOnce ((": ").data) body with
      | none => .error valueErrMsg
      | some (abb, body2) =>
        .ok (appendQuestion st page full_line body2 questionid
          (some (strip (removeAll (("Abbildung ").data) abb))))
    else .ok (appendQuestion st page full_line body questionid none)

/-- First minimal y0 wins, as Python min with a key function. -/
def minByY0 : Rect → List Rect → Rect
  | best, [] => best
  | best, r :: rs => minByY0 (if r.y0 < best.y0 then r else best) rs

/-- The candidate filter at lines 107-114: when the current question
has a located bbox, keep only the found bboxes strictly below its
first bbox and then only the topmost of those (first minimal y0);
without a question bbox all found bboxes are candidates. -/
def filterAnswerBbox (question_bbox found : List Rect) : List Rect :=
  match question_bbox with
  | [] => found
  | qb :: _ =>
    match found.filter (fun b => qb.y0 < b.y0) with
    | [] => ([] : List Rect)
    | r :: rs => [minByY0 r rs]

/-- The unconditional tail of the answer-line branch (lines 102-131):
locate the line's bboxes, extend the collected answer bboxes, filter
the candidates and run the correctness-indicator matcher over the
page's drawings. -/
def answerGeom (page : Page) (line : Str) (answercode : Str) (st : ExtractSt) :
    Except Str ExtractSt :=
  let found := page.searchFor (strip (strip line))
  let st2 := { st with answer_bboxes := st.answer_bboxes ++ found }
  match correctDrawings answercode (filterAnswerBbox st2.question_bbox found)
      page.drawings st2.questions with
  | .error e => .error e
  | .ok qs => .ok { st2 with questions := qs }

/-- The answer-line branch at lines 91-131: record the answer text on
the current question (silently skipped when no question exists yet —
in that case the Python name answercode stays unbound, which only
matters behind the IndexError modelled in correctStep), then run the
geometry part. -/
def processAnswerLine (page : Page) (st : ExtractSt) (line : Str) :
    Except Str ExtractSt :=
  if st.questions ≠ [] then
    match splitOnce ((") ").data) line with
    | none => .error valueErrMsg
    | some (answercode, body) =>
      let body := subFooter body
      let body := replaceNl body
      let body := collapseWs body
      let qs' := updateLast
        (fun q => { q with answers := assocSet answercode (strip body) q.answers })
        st.questions
      answerGeom page line answercode { st with questions := qs' }
  else answerGeom page line [] st

/-- The context-line branch at lines 132-165. -/
def processContextLine (page : Page) (st : ExtractSt) (line : Str) :
    Except Str ExtractSt :=
  let line_bbox := page.searchFor (strip line)
  bannerDrawings line line_bbox page.drawings st

/-- Classification of one logical line (lines 66, 91, 132). -/
def processLine (cfg : Config) (doc : Doc) (page : Page) (st : ExtractSt)
    (line : Str) : Except Str ExtractSt :=
  if isQLine (strip line) then processQuestionLine cfg doc page st line
  else if isALine (strip line) then processAnswerLine page st line
  else processContextLine page st line

/-- The loop over the logical lines of one page (line 63). -/
def foldLines (cfg : Config) (doc : Doc) (page : Page) :
    List Str → ExtractSt → Except Str ExtractSt
  | [], st => .ok st
  | l :: ls, st =>
    match processLine cfg doc page st l with
    | .error e => .error e
    | .ok st' => foldLines cfg doc page ls st'

/-- One iteration of the page loop (lines 51-62): increment the 1-based
page counter, require a page footer (results[0] on an empty findall
list raises IndexError), then process the logical lines.  The footer's
number is only compared against the debug page to toggle the logging
level, which has no observable effect on the result. -/
def processPage (cfg : Config) (doc : Doc) (page : Page) (st : ExtractSt) :
    Except Str ExtractSt :=
  let st := { st with page_num := st.page_num + 1 }
  if hasFooter page.text then foldLines cfg doc page (pageLines page.text) st
  else .error indexErrMsg

/-- The document loop. -/
def foldPages (cfg : Config) (doc : Doc) : List Page → ExtractSt →
    Except Str ExtractSt
  | [], st => .ok st
  | p :: ps, st =>
    match processPage cfg doc p st with
    | .error e => .error e
    | .ok st' => foldPages cfg doc ps st'

/-- The state initialized at lines 34-50, over an ambient filesystem. -/
def initSt (fs0 : FS) : ExtractSt := {
  questions := []
  fs := fs0
  section_id := 0
  subsection_id := 0
  current_section := none
  current_subsection := none
  question_bbox := []
  hasCurrent := false
  answer_bboxes := []
  page_num := 0 }

/-- extract_questions_from_pdf (lines 22-171): run the page loop and
finally save the image of the last question (lines 167-169).  The
result state carries the returned question list and the filesystem. -/
def extract_questions_from_pdf (cfg : Config) (doc : Doc) (fs0 : FS) :
    Except Str ExtractSt :=
  match foldPages cfg doc doc.pages (initSt fs0) with
  | .error e => .error e
  | .ok st => .ok (doSaveImage cfg doc st)

/-
Concrete fixture for the synthetic single-page document of the spec's
test property (claim C7): one question, four answers, one filled
indicator aligned to answer B, and the obligatory page footer.
-/

def qrect7 : Rect := { x0 := 50, y0 := 100, x1 := 200, y1 := 110 }

def arectA7 : Rect := { x0 := 50, y0 := 120, x1 := 100, y1 := 130 }

def arectB7 : Rect := { x0 := 50, y0 := 140, x1 := 100, y1 := 150 }

def arectC7 : Rect := { x0 := 50, y0 := 160, x1 := 100, y1 := 170 }

def ind7 : Drawing := {
  type := ("fs").data
  rect := { x0 := 30, y0 := 139, x1 := 45, y1 := 151 }
  fill := some (0, 0, 0) }

def page7 : Page := {
  text := ("12) Was ist das?\nA) X\nB) Y\nC) Z\nD) W\nSeite 1 von 1").data
  drawings := [ind7]
  searchFor := fun s =>
    if s = ("12) Was ist das?").data then [qrect7]
    else if s = ("A) X").data then [arectA7]
    else if s = ("B) Y").data then [arectB7]
    else if s = ("C) Z").data then [arectC7]
    else []
  width := 600
  height := 800 }

def doc7 : Doc := { pages := [page7] }

def cfg7 : Config := { save_images := false, images_dir := ("question_images").data }

def q7 : Question := {
  sectionTxt := none
  subsectionTxt := none
  question := ("Was ist das?").data
  answers := [(("A").data, ("X").data), (("B").data, ("Y").data),
    (("C").data, ("Z").data), (("D").data, ("W").data)]
  correct := [("B").data]
  abbildung := none
  id := ("12").data
  section_id := 0
  subsection_id := 0
  page := 0
  image_path := none }

def pageNoFooter : Page := {
  text := ("1) Was ist das?\nA) X").data
  drawings := []
  searchFor := fun _ => []
  width := 600
  height := 800 }

def docNoFooter : Doc := { pages := [pageNoFooter] }

/-- Inverse of the segmenter used to state its faithfulness: drop the
interleaved captured tokens and rejoin the segments with the consumed
newlines. -/
def unsplit : List Str → Str
  | [] => []
  | [s] => s
  | s :: _ :: rest => s ++ '\n' :: unsplit rest

def pageW4 : Page := {
  text := ("Seite 1 von 1").data
  drawings := []
  searchFor := fun _ => []
  width := 600
  height := 800 }

def docW4 : Doc := { pages := [pageW4] }

def qW4 : Question := {
  sectionTxt := none
  subsectionTxt := none
  question := []
  answers := []
  correct := []
  abbildung := none
  id := ("7").data
  section_id := 1
  subsection_id := 2
  page := 0
  image_path := none }

def dirW4 : Str := ("img").data

def pathW4 : Str := dirW4 ++ '/' :: imageFilename qW4

def fsW4 : FS := [(pathW4, (5, { x0 := 0, y0 := 0, x1 := 0, y1 := 0 }))]

def page8 : Page := {
  text := ("1) SeiSeite 1 von 2te 3 von 4").data
  drawings := []
  searchFor := fun _ => []
  width := 600
  height := 800 }

def doc8 : Doc := { pages := [page8] }

/-- Python questions[-1]["correct"] read as a total function: the
correct list of the last question, empty when no question exists. -/
def lastCorrect (qs : List Question) : List Str :=
  match qs.getLast? with
  | some q => q.correct
  | none => []

/-- The full per-drawing, per-bbox marking condition at lines 120-126:
position tests plus non-null fill. -/
def qualifies (d : Drawing) (b : Rect) : Bool :=
  yAligned d.rect b && leftOf d.rect b && d.fill.isSome

/-- The C7 fixture question before its correct mark is found. -/
def qW2 : Question := { q7 with correct := [] }

/-- The spec invariant: every question holds at most one correct label. -/
def correctInv (qs : List Question) : Bool :=
  qs.all (fun q => q.correct.length ≤ 1)

def stW1 : ExtractSt := { initSt [] with page_num := 1 }

/-- The (section_id, subsection_id) pairs stamped onto questions. -/
def stamps (qs : List Question) : List (Nat × Nat) :=
  qs.map (fun q => (q.section_id, q.subsection_id))

def monoPairs : List (Nat × Nat) → Bool
  | [] => true
  | [_] => true
  | a :: b :: rest => (a.1 ≤ b.1 ∧ a.2 ≤ b.2) ∧ monoPairs (b :: rest)

def stampsLE (qs : List Question) (si ssi : Nat) : Bool :=
  qs.all (fun q => q.section_id ≤ si ∧ q.subsection_id ≤ ssi)

/-- The combined ids invariant: stamped ids are non-decreasing in
output order and bounded by the running counters. -/
def idsInv (st : ExtractSt) : Prop :=
  monoPairs (stamps st.questions) = true ∧
  stampsLE st.questions st.section_id st.subsection_id = true

def rectLB : Rect := { x0 := 10, y0 := 10, x1 := 20, y1 := 20 }

def dBanner : Drawing := {
  type := ("f").data
  rect := { x0 := 0, y0 := 0, x1 := 100, y1 := 100 }
  fill := some darkFill }

def stBanner : ExtractSt :=
  { initSt [] with current_section := some (("A").data), section_id := 1 }

def page3 : Page := {
  text := ("Sec\nTitle Seite 1 von 2").data
  drawings := [dBanner, dBanner]
  searchFor := fun s =>
    if s = ("Sec\nTitle Seite 1 von 2").data then [rectLB] else []
  width := 600
  height := 800 }

def doc3 : Doc := { pages := [page3] }

def dBannerL : Drawing := {
  type := ("f").data
  rect := { x0 := 0, y0 := 0, x1 := 100, y1 := 100 }
  fill := some lightFill }

def stBannerL : ExtractSt :=
  { initSt [] with current_subsection := some (("B").data), subsection_id := 1 }

def qAppendW : Question := {
  sectionTxt := none
  subsectionTxt := none
  question := ("body").data
  answers := []
  correct := []
  abbildung := none
  id := ("3").data
  section_id := 0
  subsection_id := 0
  page := 0
  image_path := none }

def cfgSave : Config := { save_images := true, images_dir := dirW4 }

def stSave : ExtractSt := { initSt [] with
  hasCurrent := true
  answer_bboxes := [arectA7]
  question_bbox := [qrect7]
  questions := [qW4] }

/-- Helper: dropWhile never lengthens a list. -/
theorem length_dropWhile_le_len (p : Char → Bool) :
    ∀ l : Str, (l.dropWhile p).length ≤ l.length := by
  intro l
  induction l with
  | nil => simp [List.dropWhile]
  | cons c cs ih =>
    simp only [List.dropWhile]
    cases p c with
    | true => simpa using Nat.le_succ_of_le ih
    | false => simp

example : pageLines (("12) a\nA) x\nB) y").data) =
    [("12) a").data, ("A) x").data, ("B) y").data] := by decide

example : pageLines (("x\n12) a").data) = [("12").data, ("12) a").data] := by
  decide

example : subFooter (("a Seite 3 von 120 b").data) = ("a  b").data := by decide

example : collapseWs (("a  b c").data) = ("a b c").data := by decide

example : strip (("  a b ").data) = ("a b").data := by decide

set_option maxRecDepth 10000 in
/-- C7: on a single-page document whose text is "12) Was ist das?"
followed by the answer lines "A) X", "B) Y", "C) Z", "D) W", with one
stroked+filled indicator with non-null fill in qualifying position for
the bbox of the "B)" line and no other shapes, extraction returns
exactly one Question with id "12", answers A:X B:Y C:Z D:W and correct
equal to ["B"]. -/
theorem C7_single_page_fixture :
    (extract_questions_from_pdf cfg7 doc7 []).toOption.map ExtractSt.questions =
      some [q7] := by decide

/-- Helper: the page fold fails as soon as any page's text lacks the
"Seite n von m" footer, because processPage checks it up front. -/
theorem foldPages_error_of_noFooter (cfg : Config) (doc : Doc) :
    ∀ (ps : List Page) (st : ExtractSt),
      (ps.any fun p => !hasFooter p.text) = true →
      ∃ e, foldPages cfg doc ps st = .error e := by
  intro ps
  induction ps with
  | nil => intro st h; simp at h
  | cons p ps ih =>
    intro st h
    simp only [List.any_cons, Bool.or_eq_true, Bool.not_eq_true'] at h
    by_cases hf : hasFooter p.text = true
    · have hps : (ps.any fun p => !hasFooter p.text) = true := by
        rcases h with h | h
        · rw [h] at hf; cases hf
        · exact h
      simp only [foldPages]
      cases hpp : processPage cfg doc p st with
      | error e => exact ⟨e, rfl⟩
      | ok st' => exact ih st' hps
    · simp only [foldPages, processPage]
      rw [Bool.not_eq_true] at hf
      rw [hf]
      exact ⟨indexErrMsg, rfl⟩

/-- C9: if some page's extracted text has no substring matching
"Seite n von m", the extraction aborts with an uncaught exception
(results[0] on the empty findall list at line 55 raises IndexError),
so extraction can only complete on documents where every page carries
the footer. -/
theorem C9_footer_required (cfg : Config) (doc : Doc) (fs0 : FS)
    (h : (doc.pages.any fun p => !hasFooter p.text) = true) :
    ∃ e, extract_questions_from_pdf cfg doc fs0 = .error e := by
  obtain ⟨e, he⟩ := foldPages_error_of_noFooter cfg doc doc.pages (initSt fs0) h
  exact ⟨e, by simp only [extract_questions_from_pdf, he]⟩

theorem C9_witness :
    ((docNoFooter.pages.any fun p => !hasFooter p.text) = true) ∧
      ∃ e, extract_questions_from_pdf cfg7 docNoFooter [] = .error e :=
  ⟨by decide, C9_footer_required cfg7 docNoFooter [] (by decide)⟩

/-- The splitter never returns an empty list. -/
theorem splitRaw_ne_nil : ∀ s : Str, splitRaw s ≠ [] := by
  intro s
  cases s with
  | nil => simp [splitRaw]
  | cons c rest =>
    simp only [splitRaw]
    split
    · cases hd : delimAt rest with
      | some tok => simp
      | none => cases hsr : splitRaw rest <;> simp
    · cases hsr : splitRaw rest <;> simp

/-- Prepending a character to the head segment commutes with unsplit. -/
theorem unsplit_cons (c : Char) (s : Str) (ss : List Str) :
    unsplit ((c :: s) :: ss) = c :: unsplit (s :: ss) := by
  cases ss with
  | nil => rfl
  | cons t ss' => rfl

/-- Head equation of unsplit on a list with at least two elements. -/
theorem unsplit_cons_cons (s t : Str) (ss : List Str) :
    unsplit (s :: t :: ss) = s ++ '\n' :: unsplit ss := rfl

/-- The segmenter loses nothing and splits only at consumed newlines:
rejoining its segments (skipping captured tokens) restores the page
text. -/
theorem unsplit_splitRaw : ∀ text : Str, unsplit (splitRaw text) = text := by
  intro text
  induction text with
  | nil => rfl
  | cons c rest ih =>
    simp only [splitRaw]
    by_cases hc : c = '\n'
    · simp only [if_pos hc]
      cases hd : delimAt rest with
      | some tok =>
        rw [hc, unsplit_cons_cons]
        simp [ih]
      | none =>
        cases hsr : splitRaw rest with
        | nil => exact absurd hsr (splitRaw_ne_nil rest)
        | cons s ss =>
          rw [unsplit_cons]
          rw [hsr] at ih
          rw [ih]
    · simp only [if_neg hc]
      cases hsr : splitRaw rest with
      | nil => exact absurd hsr (splitRaw_ne_nil rest)
      | cons s ss =>
        rw [unsplit_cons]
        rw [hsr] at ih
        rw [ih]

/-- C6 counterexample: on the page text "x", newline, "12) a", the
captured two-digit delimiter token "12" survives as a bodyless
fragment in the logical-line sequence (the filter at line 61 only
drops fragments of length exactly one), refuting the claim that every
bodyless captured-token fragment is discarded for any token length. -/
theorem C6_counterexample :
    pageLines (("x\n12) a").data) = [("12").data, ("12) a").data] := by decide

/-- C6 amended: the segmenter begins a new logical line exactly at a
newline followed by a question-id or answer-label token with ") " and
a space (rejoining its output restores the text, so there are no other
boundaries), and the artifact filter drops exactly the fragments of
length one: single-character captured tokens disappear, while two- and
three-digit captured tokens survive into the logical-line sequence. -/
theorem C6_filter_drops_only_len1 :
    (∀ text : Str, unsplit (splitRaw text) = text) ∧
    (∀ (text l : Str), l ∈ pageLines text → l.length ≠ 1) ∧
    (∀ (text l : Str), l ∈ splitRaw text → l.length ≠ 1 → l ∈ pageLines text) := by
  refine ⟨unsplit_splitRaw, ?_, ?_⟩
  · intro text l hl
    have h := List.of_mem_filter hl
    simpa using h
  · intro text l hl hlen
    exact List.mem_filter.mpr ⟨hl, by simpa using hlen⟩

theorem C6_witness :
    ((("A) b").data ∈ pageLines (("a\nA) b").data)) ∧
      (("A) b").data).length ≠ 1) ∧
    (("A) b").data ∈ pageLines (("a\nA) b").data)) :=
  ⟨⟨by decide, C6_filter_drops_only_len1.2.1 (("a\nA) b").data) _ (by decide)⟩,
    C6_filter_drops_only_len1.2.2 (("a\nA) b").data) _ (by decide) (by decide)⟩

/-- A filesystem write leaves every entry for the written path equal to
the written pair, so writing the same content twice is the same as
writing it once. -/
theorem fsSet_idem (path : Str) (c : Nat × Rect) (fs : FS) :
    fsSet path c (fsSet path c fs) = fsSet path c fs := by
  by_cases h : fs.any (fun e => e.1 = path) = true
  · have e1 : fsSet path c fs =
        fs.map (fun e => if e.1 = path then (path, c) else e) := by
      simp only [fsSet]
      rw [if_pos h]
    have hmap : (fs.map fun e => if e.1 = path then (path, c) else e).any
        (fun e => e.1 = path) = true := by
      rw [List.any_eq_true] at h ⊢
      obtain ⟨e, he, hkey⟩ := h
      simp only [decide_eq_true_eq] at hkey
      refine ⟨(path, c), List.mem_map.mpr ⟨e, he, by simp [hkey]⟩, by simp⟩
    have e2 : fsSet path c (fs.map fun e => if e.1 = path then (path, c) else e) =
        (fs.map fun e => if e.1 = path then (path, c) else e).map
          (fun e => if e.1 = path then (path, c) else e) := by
      simp only [fsSet]
      rw [if_pos hmap]
    rw [e1, e2, List.map_map]
    apply List.map_congr_left
    intro e _
    by_cases hk : e.1 = path
    · simp [Function.comp, hk]
    · simp [Function.comp, hk]
  · have e1 : fsSet path c fs = fs ++ [(path, c)] := by
      simp only [fsSet]
      rw [if_neg h]
    have happ : (fs ++ [(path, c)]).any (fun e => e.1 = path) = true := by
      rw [List.any_eq_true]
      exact ⟨(path, c), List.mem_append_right _ (List.mem_singleton.mpr rfl), by simp⟩
    have e2 : fsSet path c (fs ++ [(path, c)]) =
        (fs ++ [(path, c)]).map (fun e => if e.1 = path then (path, c) else e) := by
      simp only [fsSet]
      rw [if_pos happ]
    have hfs : fs.map (fun e => if e.1 = path then (path, c) else e) = fs := by
      have hall : ∀ e ∈ fs, e.1 ≠ path := by
        intro e he hkey
        exact h (List.any_eq_true.mpr ⟨e, he, by simp [hkey]⟩)
      calc fs.map (fun e => if e.1 = path then (path, c) else e)
          = fs.map id := List.map_congr_left (fun e he => by simp [hall e he])
        _ = fs := List.map_id fs
    rw [e1, e2, List.map_append, hfs]
    simp

/-- C4 amended: save_question_image writes its target unconditionally,
overwriting any existing file; because the path and content are
deterministic in the arguments, running the export a second time is a
no-op on the filesystem (and the model is a total function: every
rendering error is caught inside the Python try block, so a second run
never raises). -/
theorem C4_export_idempotent (doc : Doc) (qb ab : List Rect) (dir : Str)
    (pn : Nat) (q : Question) (fs : FS) :
    save_question_image doc qb ab dir pn q
        (save_question_image doc qb ab dir pn q fs).1 =
      save_question_image doc qb ab dir pn q fs := by
  by_cases hg : qb = [] ∨ ab = []
  · simp only [save_question_image, if_pos hg]
  · simp only [save_question_image, if_neg hg]
    cases hget : doc.pages.get? pn with
    | none => simp
    | some page => simp [fsSet_idem]

/-- C4 counterexample: with the target path already present in the
filesystem (holding different content), the per-question image export
writes the file anyway — the claim that an existing target path is
skipped and never overwritten is false: there is no existence check
before pix.save at line 223. -/
theorem C4_counterexample :
    (fsW4.any fun e => e.1 = pathW4) = true ∧
      (save_question_image docW4 [qrect7] [arectA7] dirW4 0 qW4 fsW4).1 ≠ fsW4 := by
  decide

/-- The footer-removal scan never lengthens the string. -/
theorem subFooterGo_length_le : ∀ (fuel : Nat) (s : Str),
    (subFooterGo fuel s).length ≤ s.length := by
  intro fuel
  induction fuel with
  | zero => intro s; simp [subFooterGo]
  | succ fuel ih =>
    intro s
    cases s with
    | nil => simp [subFooterGo]
    | cons c rest =>
      simp only [subFooterGo]
      cases hf : footLen (c :: rest) with
      | some k =>
        calc (subFooterGo fuel (rest.drop (k - 1))).length
            ≤ (rest.drop (k - 1)).length := ih _
          _ ≤ rest.length := by simp [List.length_drop]
          _ ≤ (c :: rest).length := by simp
      | none =>
        simp only [List.length_cons]
        exact Nat.succ_le_succ (ih rest)

theorem subFooterGo_of_noFooter : ∀ (fuel : Nat) (s : Str),
    s.length ≤ fuel → hasFooter s = false → subFooterGo fuel s = s := by
  intro fuel
  induction fuel with
  | zero => intro s _ _; simp [subFooterGo]
  | succ fuel ih =>
    intro s hlen hnf
    cases s with
    | nil => simp [subFooterGo]
    | cons c rest =>
      simp only [hasFooter, Bool.or_eq_false_iff] at hnf
      obtain ⟨h1, h2⟩ := hnf
      have hfl : footLen (c :: rest) = none := by
        cases hfl : footLen (c :: rest) with
        | none => rfl
        | some k => rw [hfl] at h1; simp at h1
      simp only [subFooterGo, hfl]
      have : rest.length ≤ fuel := by
        simp only [List.length_cons] at hlen
        omega
      rw [ih rest this h2]

theorem subFooterGo_shorter : ∀ (fuel : Nat) (s : Str),
    s.length ≤ fuel → hasFooter s = true → (subFooterGo fuel s).length < s.length := by
  intro fuel
  induction fuel with
  | zero =>
    intro s hlen hf
    have : s = [] := List.length_eq_zero.mp (Nat.le_zero.mp hlen)
    subst this
    simp [hasFooter] at hf
  | succ fuel ih =>
    intro s hlen hf
    cases s with
    | nil => simp [hasFooter] at hf
    | cons c rest =>
      simp only [subFooterGo]
      cases hfl : footLen (c :: rest) with
      | some k =>
        calc (subFooterGo fuel (rest.drop (k - 1))).length
            ≤ (rest.drop (k - 1)).length := subFooterGo_length_le _ _
          _ ≤ rest.length := by simp [List.length_drop]
          _ < (c :: rest).length := by simp
      | none =>
        have hrest : hasFooter rest = true := by
          simp only [hasFooter, hfl, Option.isSome_none, Bool.false_or] at hf
          exact hf
        have hlr : rest.length ≤ fuel := by
          simp only [List.length_cons] at hlen
          omega
        simp only [List.length_cons]
        exact Nat.succ_lt_succ (ih rest hlr hrest)

theorem delimAt_none_of_footer_start : ∀ s : Str,
    startsW s (("Seite ").data) = true → delimAt s = none := by
  intro s hs
  cases s with
  | nil => simp [startsW] at hs
  | cons c rest =>
    have hdata : ("Seite ").data = ['S', 'e', 'i', 't', 'e', ' '] := by decide
    rw [hdata] at hs
    have hc : c = 'S' := by
      simp [startsW] at hs
      exact hs.1
    subst hc
    have h1 : ('S').isDigit = false := by decide
    have h2 : ¬('S' = 'A' ∨ 'S' = 'B' ∨ 'S' = 'C' ∨ 'S' = 'D') := by decide
    simp [delimAt, h1, h2]

/-- C8 counterexample: footer removal is one left-to-right pass over
the body, so deleting the embedded match "Seite 1 von 2" from the body
"SeiSeite 1 von 2te 3 von 4" splices the surrounding characters into
the new footer-shaped string "Seite 3 von 4", which survives into the
produced question text — refuting the claim that no produced question
text contains a footer-matching substring. -/
theorem C8_counterexample :
    (extract_questions_from_pdf cfg7 doc8 []).toOption.map
        (fun st => st.questions.map Question.question) =
      some [("Seite 3 von 4").data] ∧
    hasFooter (("Seite 3 von 4").data) = true := by decide

/-- C8 amended: every logical line body goes through a single
left-to-right footer-removal pass before further processing — a body
with no footer match passes through unchanged, and a body with a match
is strictly shortened (at least its leftmost match is deleted); a
footer occurrence is never treated as a question/answer boundary by
the segmenter, whose boundary lookahead rejects any position starting
with "Seite ".  Because the pass does not rescan its output, deletion
can splice surrounding text into a new footer-shaped substring which
then survives into the question or answer text. -/
theorem C8_footer_single_pass :
    (∀ s : Str, hasFooter s = false → subFooter s = s) ∧
    (∀ s : Str, hasFooter s = true → (subFooter s).length < s.length) ∧
    (∀ s : Str, startsW s (("Seite ").data) = true → delimAt s = none) :=
  ⟨fun s h => subFooterGo_of_noFooter s.length s (Nat.le_refl _) h,
   fun s h => subFooterGo_shorter s.length s (Nat.le_refl _) h,
   delimAt_none_of_footer_start⟩

theorem C8_witness :
    (hasFooter (("abc").data) = false ∧ subFooter (("abc").data) = ("abc").data) ∧
    (hasFooter (("Seite 3 von 120").data) = true ∧
      (subFooter (("Seite 3 von 120").data)).length <
        (("Seite 3 von 120").data).length) ∧
    (startsW (("Seite 9 von 9").data) (("Seite ").data) = true ∧
      delimAt (("Seite 9 von 9").data) = none) :=
  ⟨⟨by decide, C8_footer_single_pass.1 (("abc").data) (by decide)⟩,
   ⟨by decide, C8_footer_single_pass.2.1 (("Seite 3 von 120").data) (by decide)⟩,
   ⟨by decide, C8_footer_single_pass.2.2 (("Seite 9 von 9").data) (by decide)⟩⟩

theorem updateLast_eq_nil_iff (f : Question → Question) :
    ∀ qs : List Question, updateLast f qs = [] ↔ qs = [] := by
  intro qs
  match qs with
  | [] => simp [updateLast]
  | [q] => simp [updateLast]
  | q :: q' :: rest => simp [updateLast]

theorem updateLast_getLast? (f : Question → Question) :
    ∀ qs : List Question, (updateLast f qs).getLast? = qs.getLast?.map f := by
  intro qs
  match qs with
  | [] => simp [updateLast]
  | [q] => simp [updateLast]
  | q :: q' :: rest =>
    have ih := updateLast_getLast? f (q' :: rest)
    simp only [updateLast]
    cases hu : updateLast f (q' :: rest) with
    | nil => exact absurd hu (by simp [updateLast_eq_nil_iff])
    | cons x xs =>
      rw [hu] at ih
      rw [List.getLast?_cons_cons, ih, List.getLast?_cons_cons]

theorem correctStep_ok_spec (code : Str) (d : Drawing) (b : Rect)
    (qs qs' : List Question) (h : correctStep code d b qs = .ok qs') :
    (qs' = qs ∧ qualifies d b = false) ∨
    (qualifies d b = true ∧ ∃ q, qs.getLast? = some q ∧ q.correct = [] ∧
      qs' = updateLast (fun qq => { qq with correct := qq.correct ++ [code] }) qs) := by
  by_cases hy : yAligned d.rect b = true
  · by_cases hl : leftOf d.rect b = true
    · by_cases hf : d.fill.isSome = true
      · cases hgl : qs.getLast? with
        | none =>
          simp only [correctStep, if_pos hy, if_pos hl, if_pos hf, hgl] at h
          exact Except.noConfusion h
        | some q =>
          simp only [correctStep, if_pos hy, if_pos hl, if_pos hf, hgl] at h
          by_cases hc : q.correct ≠ []
          · rw [if_pos hc] at h
            cases h
          · rw [if_neg hc] at h
            push_neg at hc
            refine Or.inr ⟨by simp [qualifies, hy, hl, hf], q, rfl, hc, ?_⟩
            cases h
            rfl
      · rw [correctStep, if_pos hy, if_pos hl, if_neg hf] at h
        cases h
        exact Or.inl ⟨rfl, by simp [qualifies]; intro _ _; simpa using hf⟩
    · rw [correctStep, if_pos hy, if_neg hl] at h
      cases h
      refine Or.inl ⟨rfl, ?_⟩
      simp only [qualifies, Bool.and_eq_false_iff]
      exact Or.inl (Or.inr (by simpa using hl))
  · rw [correctStep, if_neg hy] at h
    cases h
    refine Or.inl ⟨rfl, ?_⟩
    simp only [qualifies, Bool.and_eq_false_iff]
    exact Or.inl (Or.inl (by simpa using hy))

theorem lastCorrect_of_getLast (qs : List Question) (q : Question)
    (h : qs.getLast? = some q) : lastCorrect qs = q.correct := by
  simp [lastCorrect, h]

theorem correctBoxes_blocked (code : Str) (d : Drawing) :
    ∀ (bs : List Rect) (qs qs' : List Question),
      lastCorrect qs ≠ [] → correctBoxes code d bs qs = .ok qs' → qs' = qs := by
  intro bs
  induction bs with
  | nil =>
    intro qs qs' _ h
    simp only [correctBoxes] at h
    cases h
    rfl
  | cons b bs ih =>
    intro qs qs' hlc h
    cases hs : correctStep code d b qs with
    | error e =>
      simp only [correctBoxes, hs] at h
      exact Except.noConfusion h
    | ok qs1 =>
      simp only [correctBoxes, hs] at h
      rcases correctStep_ok_spec _ _ _ _ _ hs with ⟨heq, _⟩ | ⟨_, q, hgl, hqc, _⟩
      · rw [heq] at h
        exact ih qs qs' hlc h
      · rw [lastCorrect_of_getLast qs q hgl, hqc] at hlc
        exact absurd rfl hlc

theorem correctBoxes_ok_spec (code : Str) (d : Drawing) :
    ∀ (bs : List Rect) (qs qs' : List Question),
      correctBoxes code d bs qs = .ok qs' →
      (qs' = qs ∧ ∀ b ∈ bs, qualifies d b = false) ∨
      ((∃ b ∈ bs, qualifies d b = true) ∧ ∃ q, qs.getLast? = some q ∧
        q.correct = [] ∧
        qs' = updateLast (fun qq => { qq with correct := qq.correct ++ [code] }) qs) := by
  intro bs
  induction bs with
  | nil =>
    intro qs qs' h
    simp only [correctBoxes] at h
    cases h
    exact Or.inl ⟨rfl, by simp⟩
  | cons b bs ih =>
    intro qs qs' h
    cases hs : correctStep code d b qs with
    | error e =>
      simp only [correctBoxes, hs] at h
      exact Except.noConfusion h
    | ok qs1 =>
      simp only [correctBoxes, hs] at h
      rcases correctStep_ok_spec _ _ _ _ _ hs with ⟨heq, hqf⟩ | ⟨hqual, q, hgl, hqc, hup⟩
      · rw [heq] at h
        rcases ih qs qs' h with ⟨heq2, hall⟩ | ⟨⟨b', hb', hq⟩, hrest⟩
        · refine Or.inl ⟨heq2, ?_⟩
          intro b' hb'
          rcases List.mem_cons.mp hb' with rfl | hmem
          · exact hqf
          · exact hall b' hmem
        · exact Or.inr ⟨⟨b', List.mem_cons_of_mem _ hb', hq⟩, hrest⟩
      · have hlc1 : lastCorrect qs1 ≠ [] := by
          have : qs1.getLast? = some
              { q with correct := q.correct ++ [code] } := by
            rw [hup, updateLast_getLast?, hgl]
            rfl
          rw [lastCorrect_of_getLast qs1 _ this]
          simp
        have := correctBoxes_blocked code d bs qs1 qs' hlc1 h
        subst this
        exact Or.inr ⟨⟨b, List.mem_cons_self b bs, hqual⟩, q, hgl, hqc, hup⟩

theorem correctDrawings_blocked (code : Str) (abbox : List Rect) :
    ∀ (ds : List Drawing) (qs qs' : List Question),
      lastCorrect qs ≠ [] → correctDrawings code abbox ds qs = .ok qs' → qs' = qs := by
  intro ds
  induction ds with
  | nil =>
    intro qs qs' _ h
    simp only [correctDrawings] at h
    cases h
    rfl
  | cons d ds ih =>
    intro qs qs' hlc h
    by_cases ht : d.type = ("fs").data
    · cases hcb : correctBoxes code d abbox qs with
      | error e =>
        simp only [correctDrawings, if_pos ht, hcb] at h
        exact Except.noConfusion h
      | ok qs1 =>
        simp only [correctDrawings, if_pos ht, hcb] at h
        have heq := correctBoxes_blocked code d abbox qs qs1 hlc hcb
        rw [heq] at h
        exact ih qs qs' hlc h
    · simp only [correctDrawings, if_neg ht] at h
      exact ih qs qs' hlc h

theorem correctDrawings_ok_spec (code : Str) (abbox : List Rect) :
    ∀ (ds : List Drawing) (qs qs' : List Question),
      correctDrawings code abbox ds qs = .ok qs' →
      (qs' = qs ∧ ∀ d ∈ ds, d.type = ("fs").data → ∀ b ∈ abbox, qualifies d b = false) ∨
      ((∃ d ∈ ds, d.type = ("fs").data ∧ ∃ b ∈ abbox, qualifies d b = true) ∧
        ∃ q, qs.getLast? = some q ∧ q.correct = [] ∧
        qs' = updateLast (fun qq => { qq with correct := qq.correct ++ [code] }) qs) := by
  intro ds
  induction ds with
  | nil =>
    intro qs qs' h
    simp only [correctDrawings] at h
    cases h
    exact Or.inl ⟨rfl, by simp⟩
  | cons d ds ih =>
    intro qs qs' h
    by_cases ht : d.type = ("fs").data
    · cases hcb : correctBoxes code d abbox qs with
      | error e =>
        simp only [correctDrawings, if_pos ht, hcb] at h
        exact Except.noConfusion h
      | ok qs1 =>
        simp only [correctDrawings, if_pos ht, hcb] at h
        rcases correctBoxes_ok_spec code d abbox qs qs1 hcb with
          ⟨heq, hqf⟩ | ⟨⟨b, hb, hq⟩, q, hgl, hqc, hup⟩
        · rw [heq] at h
          rcases ih qs qs' h with ⟨heq2, hall⟩ | ⟨⟨d', hd', hrest'⟩, hrest⟩
          · refine Or.inl ⟨heq2, ?_⟩
            intro d' hd' htype b hb
            rcases List.mem_cons.mp hd' with rfl | hmem
            · exact hqf b hb
            · exact hall d' hmem htype b hb
          · exact Or.inr ⟨⟨d', List.mem_cons_of_mem _ hd', hrest'⟩, hrest⟩
        · have hlc1 : lastCorrect qs1 ≠ [] := by
            have hgl1 : qs1.getLast? = some
                { q with correct := q.correct ++ [code] } := by
              rw [hup, updateLast_getLast?, hgl]
              rfl
            rw [lastCorrect_of_getLast qs1 _ hgl1]
            simp
          have := correctDrawings_blocked code abbox ds qs1 qs' hlc1 h
          subst this
          exact Or.inr ⟨⟨d, List.mem_cons_self d ds, ht, b, hb, hq⟩, q, hgl, hqc, hup⟩
    · simp only [correctDrawings, if_neg ht] at h
      rcases ih qs qs' h with ⟨heq2, hall⟩ | ⟨⟨d', hd', hrest'⟩, hrest⟩
      · refine Or.inl ⟨heq2, ?_⟩
        intro d' hd' htype b hb
        rcases List.mem_cons.mp hd' with rfl | hmem
        · exact absurd htype ht
        · exact hall d' hmem htype b hb
      · exact Or.inr ⟨⟨d', List.mem_cons_of_mem _ hd', hrest'⟩, hrest⟩

/-- C2: given the filtered answer bbox candidates, the matcher appends
the answer's label to the current question's correct list exactly when
some stroked+filled drawing with non-null fill passes both position
tests against some candidate bbox; a shape qualifying by position with
a null fill contributes nothing (the fill conjunct in the right-hand
side is necessary). -/
theorem C2_mark_iff_indicator (code : Str) (abbox : List Rect) (ds : List Drawing)
    (qs qs' : List Question)
    (h : correctDrawings code abbox ds qs = .ok qs') :
    (lastCorrect qs' = lastCorrect qs ++ [code] ↔
      ∃ d ∈ ds, d.type = ("fs").data ∧ d.fill.isSome = true ∧
        ∃ b ∈ abbox, yAligned d.rect b = true ∧ leftOf d.rect b = true) := by
  rcases correctDrawings_ok_spec code abbox ds qs qs' h with
    ⟨heq, hall⟩ | ⟨⟨d, hd, ht, b, hb, hq⟩, q, hgl, hqc, hup⟩
  · constructor
    · intro habs
      rw [heq] at habs
      have := congrArg List.length habs
      simp at this
    · rintro ⟨d, hd, htype, hfill, b, hb, hy, hl⟩
      have hfq := hall d hd htype b hb
      rw [qualifies, hy, hl, hfill] at hfq
      simp at hfq
  · have hgl' : qs'.getLast? = some { q with correct := q.correct ++ [code] } := by
      rw [hup, updateLast_getLast?, hgl]
      rfl
    have hlast : lastCorrect qs' = lastCorrect qs ++ [code] := by
      rw [lastCorrect_of_getLast qs q hgl, lastCorrect_of_getLast qs' _ hgl']
    constructor
    · intro _
      have hq' := hq
      rw [qualifies] at hq'
      simp only [Bool.and_eq_true] at hq'
      exact ⟨d, hd, ht, hq'.2, b, hb, hq'.1.1, hq'.1.2⟩
    · intro _
      exact hlast

theorem C2_witness :
    (correctDrawings (("B").data) [arectB7] [ind7] [qW2] =
      .ok [{ qW2 with correct := [("B").data] }]) ∧
    (lastCorrect [{ qW2 with correct := [("B").data] }] =
        lastCorrect [qW2] ++ [("B").data] ↔
      ∃ d ∈ [ind7], d.type = ("fs").data ∧ d.fill.isSome = true ∧
        ∃ b ∈ [arectB7], yAligned d.rect b = true ∧ leftOf d.rect b = true) :=
  ⟨rfl, C2_mark_iff_indicator (("B").data) [arectB7] [ind7] [qW2] _ rfl⟩

theorem getLast?_mem_self : ∀ (l : List Question) (a : Question),
    l.getLast? = some a → a ∈ l := by
  intro l
  induction l with
  | nil => intro a h; cases h
  | cons c rest ih =>
    intro a h
    cases rest with
    | nil =>
      simp only [List.getLast?_singleton, Option.some.injEq] at h
      simp [h]
    | cons d rest' =>
      rw [List.getLast?_cons_cons] at h
      exact List.mem_cons_of_mem c (ih a h)

theorem all_updateLast (p : Question → Bool) (f : Question → Question) :
    ∀ qs : List Question, qs.all p = true →
      (∀ q, qs.getLast? = some q → p (f q) = true) →
      (updateLast f qs).all p = true := by
  intro qs
  match qs with
  | [] => intro _ _; simp [updateLast]
  | [q] =>
    intro _ hlast
    simp only [updateLast, List.all_cons, List.all_nil, Bool.and_true]
    exact hlast q rfl
  | q :: q' :: rest =>
    intro hall hlast
    rw [List.all_cons, Bool.and_eq_true] at hall
    have ih := all_updateLast p f (q' :: rest) hall.2
      (fun qq hqq => hlast qq (by rw [List.getLast?_cons_cons]; exact hqq))
    rw [updateLast, List.all_cons, Bool.and_eq_true]
    exact ⟨hall.1, ih⟩

theorem correctInv_updateLast_same (f : Question → Question)
    (hf : ∀ q, (f q).correct = q.correct) (qs : List Question)
    (h : correctInv qs = true) : correctInv (updateLast f qs) = true := by
  refine all_updateLast _ f qs h ?_
  intro q hq
  have hmem := getLast?_mem_self qs q hq
  have := List.all_eq_true.mp h q hmem
  simpa [hf q] using this

theorem correctInv_correctDrawings (code : Str) (abbox : List Rect)
    (ds : List Drawing) (qs qs' : List Question)
    (h : correctDrawings code abbox ds qs = .ok qs')
    (hinv : correctInv qs = true) : correctInv qs' = true := by
  rcases correctDrawings_ok_spec code abbox ds qs qs' h with
    ⟨heq, _⟩ | ⟨_, q, hgl, hqc, hup⟩
  · rw [heq]; exact hinv
  · rw [hup]
    refine all_updateLast _ _ qs hinv ?_
    intro q' hq'
    rw [hgl] at hq'
    cases hq'
    simp [hqc]

theorem doSaveImage_shape (cfg : Config) (doc : Doc) (st : ExtractSt) :
    (doSaveImage cfg doc st).questions = st.questions ∨
    ∃ pth, (doSaveImage cfg doc st).questions =
      updateLast (fun qq => { qq with image_path := some pth }) st.questions := by
  by_cases hc : cfg.save_images ∧ st.hasCurrent ∧ st.answer_bboxes ≠ [] ∧
      st.question_bbox ≠ []
  · cases hgl : st.questions.getLast? with
    | none =>
      simp only [doSaveImage, if_pos hc, hgl]
      exact Or.inl trivial
    | some q =>
      cases hres : (save_question_image doc st.question_bbox st.answer_bboxes
          cfg.images_dir q.page q st.fs).2 with
      | none =>
        simp only [doSaveImage, if_pos hc, hgl, hres]
        exact Or.inl trivial
      | some p =>
        simp only [doSaveImage, if_pos hc, hgl, hres]
        exact Or.inr ⟨p, rfl⟩
  · simp only [doSaveImage, if_neg hc]
    exact Or.inl trivial

theorem doSaveImage_fields (cfg : Config) (doc : Doc) (st : ExtractSt) :
    (doSaveImage cfg doc st).section_id = st.section_id ∧
    (doSaveImage cfg doc st).subsection_id = st.subsection_id ∧
    (doSaveImage cfg doc st).current_section = st.current_section ∧
    (doSaveImage cfg doc st).current_subsection = st.current_subsection ∧
    (doSaveImage cfg doc st).page_num = st.page_num ∧
    (doSaveImage cfg doc st).question_bbox = st.question_bbox ∧
    (doSaveImage cfg doc st).answer_bboxes = st.answer_bboxes ∧
    (doSaveImage cfg doc st).hasCurrent = st.hasCurrent := by
  by_cases hc : cfg.save_images ∧ st.hasCurrent ∧ st.answer_bboxes ≠ [] ∧
      st.question_bbox ≠ []
  · cases hgl : st.questions.getLast? with
    | none =>
      simp only [doSaveImage, if_pos hc, hgl]
      exact ⟨trivial, trivial, trivial, trivial, trivial, trivial, trivial, trivial⟩
    | some q =>
      cases hres : (save_question_image doc st.question_bbox st.answer_bboxes
          cfg.images_dir q.page q st.fs).2 with
      | none =>
        simp only [doSaveImage, if_pos hc, hgl, hres]
        exact ⟨trivial, trivial, trivial, trivial, trivial, trivial, trivial, trivial⟩
      | some p =>
        simp only [doSaveImage, if_pos hc, hgl, hres]
        exact ⟨trivial, trivial, trivial, trivial, trivial, trivial, trivial, trivial⟩
  · simp only [doSaveImage, if_neg hc]
    exact ⟨trivial, trivial, trivial, trivial, trivial, trivial, trivial, trivial⟩

theorem doSaveImage_correctInv (cfg : Config) (doc : Doc) (st : ExtractSt)
    (h : correctInv st.questions = true) :
    correctInv (doSaveImage cfg doc st).questions = true := by
  rcases doSaveImage_shape cfg doc st with heq | ⟨pth, heq⟩
  · rw [heq]; exact h
  · rw [heq]
    exact correctInv_updateLast_same
      (fun qq => { qq with image_path := some pth }) (fun q => rfl) st.questions h

theorem answerGeom_spec (page : Page) (line code : Str) (st st' : ExtractSt)
    (h : answerGeom page line code st = .ok st') :
    correctDrawings code
        (filterAnswerBbox st.question_bbox (page.searchFor (strip (strip line))))
        page.drawings st.questions = .ok st'.questions ∧
    st'.fs = st.fs ∧ st'.section_id = st.section_id ∧
    st'.subsection_id = st.subsection_id ∧
    st'.current_section = st.current_section ∧
    st'.current_subsection = st.current_subsection ∧
    st'.question_bbox = st.question_bbox ∧
    st'.hasCurrent = st.hasCurrent ∧
    st'.page_num = st.page_num ∧
    st'.answer_bboxes = st.answer_bboxes ++ page.searchFor (strip (strip line)) := by
  simp only [answerGeom] at h
  cases hcd : correctDrawings code
      (filterAnswerBbox st.question_bbox (page.searchFor (strip (strip line))))
      page.drawings st.questions with
  | error e =>
    simp only [hcd] at h
    exact Except.noConfusion h
  | ok qs =>
    simp only [hcd] at h
    cases h
    exact ⟨rfl, rfl, rfl, rfl, rfl, rfl, rfl, rfl, rfl, rfl⟩

theorem appendQuestion_correctInv (st : ExtractSt) (page : Page)
    (full_line body questionid : Str) (abb : Option Str)
    (h : correctInv st.questions = true) :
    correctInv (appendQuestion st page full_line body questionid abb).questions = true := by
  simp only [appendQuestion, correctInv, List.all_append, Bool.and_eq_true]
  exact ⟨h, by simp⟩

theorem processQuestionLine_correctInv (cfg : Config) (doc : Doc) (page : Page)
    (st : ExtractSt) (line : Str) (st' : ExtractSt)
    (h : processQuestionLine cfg doc page st line = .ok st')
    (hinv : correctInv st.questions = true) : correctInv st'.questions = true := by
  have hmid : correctInv ({ doSaveImage cfg doc st with
      answer_bboxes := ([] : List Rect) }).questions = true :=
    doSaveImage_correctInv cfg doc st hinv
  cases hsp : splitOnce ((") ").data) line with
  | none =>
    simp only [processQuestionLine, hsp] at h
    exact Except.noConfusion h
  | some pr =>
    obtain ⟨qid, body0⟩ := pr
    simp only [processQuestionLine, hsp] at h
    by_cases habb : startsW (collapseWs (replaceNl (subFooter body0)))
        (("Abbildung ").data) = true
    · rw [if_pos habb] at h
      cases hsp2 : splitOnce ((": ").data)
          (collapseWs (replaceNl (subFooter body0))) with
      | none =>
        simp only [hsp2] at h
        exact Except.noConfusion h
      | some pr2 =>
        obtain ⟨abb, body2⟩ := pr2
        simp only [hsp2] at h
        cases h
        exact appendQuestion_correctInv _ _ _ _ _ _ hmid
    · rw [if_neg habb] at h
      cases h
      exact appendQuestion_correctInv _ _ _ _ _ _ hmid

theorem processAnswerLine_correctInv (page : Page) (st : ExtractSt) (line : Str)
    (st' : ExtractSt) (h : processAnswerLine page st line = .ok st')
    (hinv : correctInv st.questions = true) : correctInv st'.questions = true := by
  simp only [processAnswerLine] at h
  by_cases hq : st.questions ≠ []
  · rw [if_pos hq] at h
    cases hsp : splitOnce ((") ").data) line with
    | none =>
      simp only [hsp] at h
      exact Except.noConfusion h
    | some pr =>
      obtain ⟨code, body0⟩ := pr
      simp only [hsp] at h
      have hspec := answerGeom_spec _ _ _ _ _ h
      refine correctInv_correctDrawings _ _ _ _ _ hspec.1 ?_
      exact correctInv_updateLast_same
        (fun q => { q with answers := assocSet code (strip (collapseWs (replaceNl (subFooter body0)))) q.answers })
        (fun q => rfl) st.questions hinv
  · rw [if_neg hq] at h
    have hspec := answerGeom_spec _ _ _ _ _ h
    exact correctInv_correctDrawings _ _ _ _ _ hspec.1 hinv

theorem bannerStep_ok_shape (line : Str) (lbb : List Rect) (d : Drawing)
    (st st' : ExtractSt) (h : bannerStep line lbb d st = .ok st') :
    st'.questions = st.questions ∧ st'.fs = st.fs ∧
    st'.question_bbox = st.question_bbox ∧ st'.hasCurrent = st.hasCurrent ∧
    st'.answer_bboxes = st.answer_bboxes ∧ st'.page_num = st.page_num ∧
    st.section_id ≤ st'.section_id ∧ st.subsection_id ≤ st'.subsection_id := by
  by_cases ht : d.type = ("f").data
  · by_cases hd : d.fill = some darkFill
    · have hne : d.fill ≠ some lightFill := by rw [hd]; decide
      by_cases ha : lbb.any (fun b => containsTL d.rect b) = true
      · by_cases hlen : (splitNl (strip line)).length < 2
        · simp only [bannerStep, if_pos ht, if_pos hd, if_pos ha, if_pos hlen] at h
          exact Except.noConfusion h
        · simp only [bannerStep, if_pos ht, if_pos hd, if_pos ha, if_neg hlen,
            if_neg hne] at h
          cases h
          exact ⟨rfl, rfl, rfl, rfl, rfl, rfl, Nat.le_succ _, Nat.le_refl _⟩
      · simp only [bannerStep, if_pos ht, if_pos hd, if_neg ha, if_neg hne] at h
        cases h
        exact ⟨rfl, rfl, rfl, rfl, rfl, rfl, Nat.le_refl _, Nat.le_refl _⟩
    · by_cases hl : d.fill = some lightFill
      · by_cases ha : lbb.any (fun b => containsTL d.rect b) = true
        · simp only [bannerStep, if_pos ht, if_neg hd, if_pos hl, if_pos ha] at h
          cases h
          exact ⟨rfl, rfl, rfl, rfl, rfl, rfl, Nat.le_refl _, Nat.le_succ _⟩
        · simp only [bannerStep, if_pos ht, if_neg hd, if_pos hl, if_neg ha] at h
          cases h
          exact ⟨rfl, rfl, rfl, rfl, rfl, rfl, Nat.le_refl _, Nat.le_refl _⟩
      · simp only [bannerStep, if_pos ht, if_neg hd, if_neg hl] at h
        cases h
        exact ⟨rfl, rfl, rfl, rfl, rfl, rfl, Nat.le_refl _, Nat.le_refl _⟩
  · simp only [bannerStep, if_neg ht] at h
    cases h
    exact ⟨rfl, rfl, rfl, rfl, rfl, rfl, Nat.le_refl _, Nat.le_refl _⟩

theorem bannerDrawings_ok_shape (line : Str) (lbb : List Rect) :
    ∀ (ds : List Drawing) (st st' : ExtractSt),
      bannerDrawings line lbb ds st = .ok st' →
      st'.questions = st.questions ∧ st'.fs = st.fs ∧
      st'.question_bbox = st.question_bbox ∧ st'.hasCurrent = st.hasCurrent ∧
      st'.answer_bboxes = st.answer_bboxes ∧ st'.page_num = st.page_num ∧
      st.section_id ≤ st'.section_id ∧ st.subsection_id ≤ st'.subsection_id := by
  intro ds
  induction ds with
  | nil =>
    intro st st' h
    simp only [bannerDrawings] at h
    cases h
    exact ⟨rfl, rfl, rfl, rfl, rfl, rfl, Nat.le_refl _, Nat.le_refl _⟩
  | cons d ds ih =>
    intro st st' h
    cases hs : bannerStep line lbb d st with
    | error e =>
      simp only [bannerDrawings, hs] at h
      exact Except.noConfusion h
    | ok st1 =>
      simp only [bannerDrawings, hs] at h
      obtain ⟨e1, e2, e3, e4, e5, e6, l1, l2⟩ := bannerStep_ok_shape _ _ _ _ _ hs
      obtain ⟨f1, f2, f3, f4, f5, f6, m1, m2⟩ := ih st1 st' h
      exact ⟨f1.trans e1, f2.trans e2, f3.trans e3, f4.trans e4, f5.trans e5,
        f6.trans e6, l1.trans m1, l2.trans m2⟩

theorem processContextLine_shape (page : Page) (st : ExtractSt) (line : Str)
    (st' : ExtractSt) (h : processContextLine page st line = .ok st') :
    st'.questions = st.questions ∧ st'.fs = st.fs ∧
    st'.question_bbox = st.question_bbox ∧ st'.hasCurrent = st.hasCurrent ∧
    st'.answer_bboxes = st.answer_bboxes ∧ st'.page_num = st.page_num ∧
    st.section_id ≤ st'.section_id ∧ st.subsection_id ≤ st'.subsection_id := by
  simp only [processContextLine] at h
  exact bannerDrawings_ok_shape _ _ _ _ _ h

theorem processLine_correctInv (cfg : Config) (doc : Doc) (page : Page)
    (st : ExtractSt) (line : Str) (st' : ExtractSt)
    (h : processLine cfg doc page st line = .ok st')
    (hinv : correctInv st.questions = true) : correctInv st'.questions = true := by
  simp only [processLine] at h
  by_cases h1 : isQLine (strip line) = true
  · rw [if_pos h1] at h
    exact processQuestionLine_correctInv _ _ _ _ _ _ h hinv
  · rw [if_neg h1] at h
    by_cases h2 : isALine (strip line) = true
    · rw [if_pos h2] at h
      exact processAnswerLine_correctInv _ _ _ _ h hinv
    · rw [if_neg h2] at h
      obtain ⟨e1, _⟩ := processContextLine_shape _ _ _ _ h
      rw [e1]
      exact hinv

theorem foldLines_preserve (cfg : Config) (doc : Doc) (page : Page)
    (P : ExtractSt → Prop)
    (hstep : ∀ st line st', processLine cfg doc page st line = .ok st' → P st → P st') :
    ∀ (ls : List Str) (st st' : ExtractSt),
      foldLines cfg doc page ls st = .ok st' → P st → P st' := by
  intro ls
  induction ls with
  | nil =>
    intro st st' h hp
    simp only [foldLines] at h
    cases h
    exact hp
  | cons l ls ih =>
    intro st st' h hp
    cases hpl : processLine cfg doc page st l with
    | error e =>
      simp only [foldLines, hpl] at h
      exact Except.noConfusion h
    | ok st1 =>
      simp only [foldLines, hpl] at h
      exact ih st1 st' h (hstep st l st1 hpl hp)

theorem foldPages_preserve (cfg : Config) (doc : Doc) (P : ExtractSt → Prop)
    (hstep : ∀ page st line st', processLine cfg doc page st line = .ok st' → P st → P st')
    (hpn : ∀ st n, P st → P { st with page_num := n }) :
    ∀ (ps : List Page) (st st' : ExtractSt),
      foldPages cfg doc ps st = .ok st' → P st → P st' := by
  intro ps
  induction ps with
  | nil =>
    intro st st' h hp
    simp only [foldPages] at h
    cases h
    exact hp
  | cons p ps ih =>
    intro st st' h hp
    cases hpp : processPage cfg doc p st with
    | error e =>
      simp only [foldPages, hpp] at h
      exact Except.noConfusion h
    | ok st1 =>
      simp only [foldPages, hpp] at h
      refine ih st1 st' h ?_
      by_cases hf : hasFooter p.text = true
      · simp only [processPage, if_pos hf] at hpp
        exact foldLines_preserve cfg doc p P (hstep p) _ _ _ hpp
          (hpn st (st.page_num + 1) hp)
      · simp only [processPage, if_neg hf] at hpp
        exact Except.noConfusion hpp

theorem extract_preserve (cfg : Config) (doc : Doc) (fs0 : FS)
    (P : ExtractSt → Prop)
    (hstep : ∀ page st line st', processLine cfg doc page st line = .ok st' → P st → P st')
    (hpn : ∀ st n, P st → P { st with page_num := n })
    (hsave : ∀ st, P st → P (doSaveImage cfg doc st))
    (st : ExtractSt) (h : extract_questions_from_pdf cfg doc fs0 = .ok st)
    (hinit : P (initSt fs0)) : P st := by
  cases hfp : foldPages cfg doc doc.pages (initSt fs0) with
  | error e =>
    simp only [extract_questions_from_pdf, hfp] at h
    exact Except.noConfusion h
  | ok st1 =>
    simp only [extract_questions_from_pdf, hfp] at h
    cases h
    exact hsave st1 (foldPages_preserve cfg doc P hstep hpn doc.pages _ _ hfp hinit)

/-- C1: every question's correct list holds at most one label, at all
times — each line-processing step preserves the invariant, every
successful whole extraction satisfies it on the output — and when the
matcher finds a second qualifying stroked+filled shape with non-null
fill for a question whose correct list is already non-empty, the step
aborts with the fatal error whose message ends with the triggering
question's id (the error propagates through the Except folds, aborting
the extraction). -/
theorem C1_correct_at_most_one :
    (∀ (cfg : Config) (doc : Doc) (page : Page) (st : ExtractSt) (line : Str)
        (st' : ExtractSt), processLine cfg doc page st line = .ok st' →
        correctInv st.questions = true → correctInv st'.questions = true) ∧
    (∀ (cfg : Config) (doc : Doc) (fs0 : FS) (st : ExtractSt),
        extract_questions_from_pdf cfg doc fs0 = .ok st →
        correctInv st.questions = true) ∧
    (∀ (code : Str) (d : Drawing) (b : Rect) (qs : List Question) (q : Question),
        qs.getLast? = some q → q.correct ≠ [] →
        yAligned d.rect b = true → leftOf d.rect b = true → d.fill.isSome = true →
        correctStep code d b qs = .error (multiCorrectMsg q.id) ∧
        ∃ pre, multiCorrectMsg q.id = pre ++ q.id) := by
  refine ⟨processLine_correctInv, ?_, ?_⟩
  · intro cfg doc fs0 st h
    exact extract_preserve cfg doc fs0 (fun s => correctInv s.questions = true)
      (fun page st line st' hh hp => processLine_correctInv cfg doc page st line st' hh hp)
      (fun st n hp => hp)
      (fun st hp => doSaveImage_correctInv cfg doc st hp)
      st h rfl
  · intro code d b qs q hgl hc hy hl hf
    constructor
    · simp only [correctStep, if_pos hy, if_pos hl, if_pos hf, hgl, if_pos hc]
    · exact ⟨("Multiple correct answers found for question ").data, rfl⟩

theorem C1_witness :
    correctInv (initSt []).questions = true ∧
    correctInv stW1.questions = true ∧
    (correctStep (("X").data) ind7 arectB7 [q7] =
        .error (multiCorrectMsg (("12").data)) ∧
      ∃ pre, multiCorrectMsg (("12").data) = pre ++ ("12").data) :=
  ⟨C1_correct_at_most_one.1 cfg7 doc7 page7 (initSt []) (("x").data) (initSt []) rfl rfl,
   C1_correct_at_most_one.2.1 cfg7 docW4 [] stW1 rfl,
   C1_correct_at_most_one.2.2 (("X").data) ind7 arectB7 [q7] q7 rfl (by decide)
     (by decide) (by decide) (by decide)⟩

theorem stamps_updateLast (f : Question → Question)
    (hf : ∀ q, (f q).section_id = q.section_id ∧ (f q).subsection_id = q.subsection_id) :
    ∀ qs : List Question, stamps (updateLast f qs) = stamps qs := by
  intro qs
  match qs with
  | [] => rfl
  | [q] =>
    simp only [updateLast, stamps, List.map_cons, List.map_nil]
    rw [(hf q).1, (hf q).2]
  | q :: q' :: rest =>
    have ih := stamps_updateLast f hf (q' :: rest)
    simp only [updateLast, stamps, List.map_cons] at ih ⊢
    rw [ih]

theorem stampsLE_updateLast (f : Question → Question)
    (hf : ∀ q, (f q).section_id = q.section_id ∧ (f q).subsection_id = q.subsection_id)
    (qs : List Question) (si ssi : Nat) (h : stampsLE qs si ssi = true) :
    stampsLE (updateLast f qs) si ssi = true := by
  refine all_updateLast _ f qs h ?_
  intro q hq
  have hmem := getLast?_mem_self qs q hq
  have := List.all_eq_true.mp h q hmem
  simpa [(hf q).1, (hf q).2] using this

theorem stampsLE_mono (qs : List Question) (si ssi si' ssi' : Nat)
    (h1 : si ≤ si') (h2 : ssi ≤ ssi') (h : stampsLE qs si ssi = true) :
    stampsLE qs si' ssi' = true := by
  rw [stampsLE, List.all_eq_true] at h ⊢
  intro q hmem
  have := h q hmem
  simp only [decide_eq_true_eq] at this ⊢
  exact ⟨Nat.le_trans this.1 h1, Nat.le_trans this.2 h2⟩

theorem monoPairs_append (x : Nat × Nat) :
    ∀ l : List (Nat × Nat), monoPairs l = true →
      (∀ y, l.getLast? = some y → y.1 ≤ x.1 ∧ y.2 ≤ x.2) →
      monoPairs (l ++ [x]) = true := by
  intro l
  match l with
  | [] => intro _ _; rfl
  | [a] =>
    intro _ hlast
    have := hlast a rfl
    simp only [List.cons_append, List.nil_append, monoPairs]
    simpa using this
  | a :: b :: rest =>
    intro h hlast
    have hmono : (a.1 ≤ b.1 ∧ a.2 ≤ b.2) ∧ monoPairs (b :: rest) = true := by
      rw [monoPairs] at h
      simpa using h
    have ih := monoPairs_append x (b :: rest) hmono.2
      (fun y hy => hlast y (by rw [List.getLast?_cons_cons]; exact hy))
    simp only [List.cons_append] at ih ⊢
    rw [monoPairs]
    simp only [Bool.and_eq_true, decide_eq_true_eq]
    constructor
    · exact ⟨by simpa using hmono.1.1, by simpa using hmono.1.2⟩
    · exact ih

theorem stamps_getLast (qs : List Question) (y : Nat × Nat)
    (h : (stamps qs).getLast? = some y) :
    ∃ q, qs.getLast? = some q ∧ y = (q.section_id, q.subsection_id) := by
  rw [stamps, List.getLast?_map] at h
  cases hgl : qs.getLast? with
  | none => rw [hgl] at h; cases h
  | some q =>
    rw [hgl] at h
    simp only [Option.map_some', Option.some.injEq] at h
    exact ⟨q, rfl, h.symm⟩

theorem stampsLE_of_stamps_eq (qs qs' : List Question)
    (h : stamps qs' = stamps qs) (si ssi : Nat)
    (hle : stampsLE qs si ssi = true) : stampsLE qs' si ssi = true := by
  rw [stampsLE, List.all_eq_true] at hle ⊢
  intro q hmem
  have hmem2 : (q.section_id, q.subsection_id) ∈ stamps qs := by
    rw [← h, stamps]
    exact List.mem_map.mpr ⟨q, hmem, rfl⟩
  rw [stamps] at hmem2
  obtain ⟨q0, hq0, heq⟩ := List.mem_map.mp hmem2
  have hb := hle q0 hq0
  have e1 : q0.section_id = q.section_id := congrArg Prod.fst heq
  have e2 : q0.subsection_id = q.subsection_id := congrArg Prod.snd heq
  simp only [decide_eq_true_eq] at hb ⊢
  exact ⟨e1 ▸ hb.1, e2 ▸ hb.2⟩

theorem idsInv_appendQuestion (st : ExtractSt) (page : Page)
    (fl body qid : Str) (abb : Option Str) (h : idsInv st) :
    idsInv (appendQuestion st page fl body qid abb) := by
  obtain ⟨hmono, hle⟩ := h
  constructor
  · show monoPairs (stamps (st.questions ++ [_])) = true
    rw [stamps, List.map_append]
    refine monoPairs_append _ _ ?_ ?_
    · rw [← stamps]; exact hmono
    · intro y hy
      rw [← stamps] at hy
      obtain ⟨q, hgl, rfl⟩ := stamps_getLast _ _ hy
      have hmem := getLast?_mem_self _ _ hgl
      have := List.all_eq_true.mp hle q hmem
      simpa using this
  · show stampsLE (st.questions ++ [_]) st.section_id st.subsection_id = true
    rw [stampsLE, List.all_append, Bool.and_eq_true]
    exact ⟨hle, by simp⟩

theorem stamps_correctDrawings (code : Str) (abbox : List Rect)
    (ds : List Drawing) (qs qs' : List Question)
    (h : correctDrawings code abbox ds qs = .ok qs') : stamps qs' = stamps qs := by
  rcases correctDrawings_ok_spec code abbox ds qs qs' h with
    ⟨heq, _⟩ | ⟨_, q, _, _, hup⟩
  · rw [heq]
  · rw [hup]
    exact stamps_updateLast _ (by intro q; exact ⟨rfl, rfl⟩) qs

theorem idsInv_doSaveImage (cfg : Config) (doc : Doc) (st : ExtractSt)
    (h : idsInv st) : idsInv (doSaveImage cfg doc st) := by
  obtain ⟨hmono, hle⟩ := h
  obtain ⟨f1, f2, _⟩ := doSaveImage_fields cfg doc st
  have hst : stamps (doSaveImage cfg doc st).questions = stamps st.questions := by
    rcases doSaveImage_shape cfg doc st with heq | ⟨pth, heq⟩
    · rw [heq]
    · rw [heq]
      exact stamps_updateLast _ (by intro q; exact ⟨rfl, rfl⟩) st.questions
  constructor
  · rw [hst]; exact hmono
  · rw [f1, f2]
    exact stampsLE_of_stamps_eq st.questions _ hst _ _ hle

theorem processQuestionLine_ok_spec (cfg : Config) (doc : Doc) (page : Page)
    (st : ExtractSt) (line : Str) (st' : ExtractSt)
    (h : processQuestionLine cfg doc page st line = .ok st') :
    ∃ fl body qid abb, st' =
      appendQuestion { doSaveImage cfg doc st with answer_bboxes := ([] : List Rect) }
        page fl body qid abb := by
  cases hsp : splitOnce ((") ").data) line with
  | none =>
    simp only [processQuestionLine, hsp] at h
    exact Except.noConfusion h
  | some pr =>
    obtain ⟨qid, body0⟩ := pr
    simp only [processQuestionLine, hsp] at h
    by_cases habb : startsW (collapseWs (replaceNl (subFooter body0)))
        (("Abbildung ").data) = true
    · rw [if_pos habb] at h
      cases hsp2 : splitOnce ((": ").data)
          (collapseWs (replaceNl (subFooter body0))) with
      | none =>
        simp only [hsp2] at h
        exact Except.noConfusion h
      | some pr2 =>
        obtain ⟨abb0, body2⟩ := pr2
        simp only [hsp2] at h
        cases h
        exact ⟨_, _, _, _, rfl⟩
    · rw [if_neg habb] at h
      cases h
      exact ⟨_, _, _, _, rfl⟩

theorem processLine_idsInv (cfg : Config) (doc : Doc) (page : Page)
    (st : ExtractSt) (line : Str) (st' : ExtractSt)
    (h : processLine cfg doc page st line = .ok st')
    (hinv : idsInv st) : idsInv st' := by
  simp only [processLine] at h
  by_cases h1 : isQLine (strip line) = true
  · rw [if_pos h1] at h
    obtain ⟨fl, body, qid, abb, rfl⟩ := processQuestionLine_ok_spec _ _ _ _ _ _ h
    exact idsInv_appendQuestion _ _ _ _ _ _ (idsInv_doSaveImage cfg doc st hinv)
  · rw [if_neg h1] at h
    by_cases h2 : isALine (strip line) = true
    · rw [if_pos h2] at h
      simp only [processAnswerLine] at h
      obtain ⟨hmono, hle⟩ := hinv
      by_cases hq : st.questions ≠ []
      · rw [if_pos hq] at h
        cases hsp : splitOnce ((") ").data) line with
        | none =>
          simp only [hsp] at h
          exact Except.noConfusion h
        | some pr =>
          obtain ⟨code, body0⟩ := pr
          simp only [hsp] at h
          have hspec := answerGeom_spec _ _ _ _ _ h
          have hstq : stamps st'.questions = stamps st.questions := by
            rw [stamps_correctDrawings _ _ _ _ _ hspec.1]
            exact stamps_updateLast _ (by intro q; exact ⟨rfl, rfl⟩) st.questions
          constructor
          · rw [hstq]; exact hmono
          · rw [hspec.2.2.1, hspec.2.2.2.1]
            exact stampsLE_of_stamps_eq st.questions _ hstq _ _ hle
      · rw [if_neg hq] at h
        have hspec := answerGeom_spec _ _ _ _ _ h
        have hstq : stamps st'.questions = stamps st.questions :=
          stamps_correctDrawings _ _ _ _ _ hspec.1
        constructor
        · rw [hstq]; exact hmono
        · rw [hspec.2.2.1, hspec.2.2.2.1]
          exact stampsLE_of_stamps_eq st.questions _ hstq _ _ hle
    · rw [if_neg h2] at h
      obtain ⟨e1, _, _, _, _, _, l1, l2⟩ := processContextLine_shape _ _ _ _ h
      obtain ⟨hmono, hle⟩ := hinv
      constructor
      · rw [e1]; exact hmono
      · exact stampsLE_of_stamps_eq st.questions _ (congrArg stamps e1) _ _
          (stampsLE_mono _ _ _ _ _ l1 l2 hle)

theorem processLine_counters (cfg : Config) (doc : Doc) (page : Page)
    (st : ExtractSt) (line : Str) (st' : ExtractSt)
    (h : processLine cfg doc page st line = .ok st') :
    st.section_id ≤ st'.section_id ∧ st.subsection_id ≤ st'.subsection_id ∧
    st'.page_num = st.page_num := by
  simp only [processLine] at h
  by_cases h1 : isQLine (strip line) = true
  · rw [if_pos h1] at h
    obtain ⟨fl, body, qid, abb, rfl⟩ := processQuestionLine_ok_spec _ _ _ _ _ _ h
    obtain ⟨f1, f2, _, _, f5, _⟩ := doSaveImage_fields cfg doc st
    refine ⟨?_, ?_, ?_⟩
    · show st.section_id ≤ (doSaveImage cfg doc st).section_id
      rw [f1]
    · show st.subsection_id ≤ (doSaveImage cfg doc st).subsection_id
      rw [f2]
    · show (doSaveImage cfg doc st).page_num = st.page_num
      exact f5
  · rw [if_neg h1] at h
    by_cases h2 : isALine (strip line) = true
    · rw [if_pos h2] at h
      simp only [processAnswerLine] at h
      by_cases hq : st.questions ≠ []
      · rw [if_pos hq] at h
        cases hsp : splitOnce ((") ").data) line with
        | none =>
          simp only [hsp] at h
          exact Except.noConfusion h
        | some pr =>
          obtain ⟨code, body0⟩ := pr
          simp only [hsp] at h
          have hspec := answerGeom_spec _ _ _ _ _ h
          exact ⟨Nat.le_of_eq hspec.2.2.1.symm, Nat.le_of_eq hspec.2.2.2.1.symm,
            hspec.2.2.2.2.2.2.2.2.1⟩
      · rw [if_neg hq] at h
        have hspec := answerGeom_spec _ _ _ _ _ h
        exact ⟨Nat.le_of_eq hspec.2.2.1.symm, Nat.le_of_eq hspec.2.2.2.1.symm,
          hspec.2.2.2.2.2.2.2.2.1⟩
    · rw [if_neg h2] at h
      obtain ⟨_, _, _, _, _, e6, l1, l2⟩ := processContextLine_shape _ _ _ _ h
      exact ⟨l1, l2, e6⟩

theorem bannerStep_increments (line : Str) (lbb : List Rect) (d : Drawing)
    (st st' : ExtractSt) (h : bannerStep line lbb d st = .ok st') :
    (st'.section_id = st.section_id ∨ st'.section_id = st.section_id + 1) ∧
    (st'.subsection_id = st.subsection_id ∨ st'.subsection_id = st.subsection_id + 1) ∧
    ((d.type = ("f").data ∧ d.fill = some darkFill ∧
        lbb.any (fun b => containsTL d.rect b) = true) →
      st'.section_id = st.section_id + 1 ∧ st'.subsection_id = st.subsection_id) ∧
    ((d.type = ("f").data ∧ d.fill = some lightFill ∧
        lbb.any (fun b => containsTL d.rect b) = true) →
      st'.subsection_id = st.subsection_id + 1 ∧ st'.section_id = st.section_id) := by
  by_cases ht : d.type = ("f").data
  · by_cases hd : d.fill = some darkFill
    · have hne : d.fill ≠ some lightFill := by rw [hd]; decide
      by_cases ha : lbb.any (fun b => containsTL d.rect b) = true
      · by_cases hlen : (splitNl (strip line)).length < 2
        · simp only [bannerStep, if_pos ht, if_pos hd, if_pos ha, if_pos hlen] at h
          exact Except.noConfusion h
        · simp only [bannerStep, if_pos ht, if_pos hd, if_pos ha, if_neg hlen,
            if_neg hne] at h
          cases h
          exact ⟨Or.inr rfl, Or.inl rfl, fun _ => ⟨rfl, rfl⟩,
            fun hx => absurd hx.2.1 hne⟩
      · simp only [bannerStep, if_pos ht, if_pos hd, if_neg ha, if_neg hne] at h
        cases h
        exact ⟨Or.inl rfl, Or.inl rfl, fun hx => absurd hx.2.2 ha,
          fun hx => absurd hx.2.1 hne⟩
    · by_cases hl : d.fill = some lightFill
      · by_cases ha : lbb.any (fun b => containsTL d.rect b) = true
        · simp only [bannerStep, if_pos ht, if_neg hd, if_pos hl, if_pos ha] at h
          cases h
          exact ⟨Or.inl rfl, Or.inr rfl, fun hx => absurd hx.2.1 hd,
            fun _ => ⟨rfl, rfl⟩⟩
        · simp only [bannerStep, if_pos ht, if_neg hd, if_pos hl, if_neg ha] at h
          cases h
          exact ⟨Or.inl rfl, Or.inl rfl, fun hx => absurd hx.2.1 hd,
            fun hx => absurd hx.2.2 ha⟩
      · simp only [bannerStep, if_pos ht, if_neg hd, if_neg hl] at h
        cases h
        exact ⟨Or.inl rfl, Or.inl rfl, fun hx => absurd hx.2.1 hd,
          fun hx => absurd hx.2.1 hl⟩
  · simp only [bannerStep, if_neg ht] at h
    cases h
    exact ⟨Or.inl rfl, Or.inl rfl, fun hx => absurd hx.1 ht,
      fun hx => absurd hx.1 ht⟩

/-- C5: the running section/subsection counters never decrease over any
line-processing step; each matching banner drawing increments its
counter by exactly one (and a non-matching drawing leaves it alone, so
a counter changes by zero or one per drawing); the counters start at 0,
so the first matching banner makes the counter 1; and in every
successful extraction the stamped (section_id, subsection_id) pairs
are non-decreasing in output order. -/
theorem C5_ids_monotone :
    (∀ (cfg : Config) (doc : Doc) (page : Page) (st : ExtractSt) (line : Str)
        (st' : ExtractSt), processLine cfg doc page st line = .ok st' →
        st.section_id ≤ st'.section_id ∧ st.subsection_id ≤ st'.subsection_id) ∧
    (∀ (line : Str) (lbb : List Rect) (d : Drawing) (st st' : ExtractSt),
        bannerStep line lbb d st = .ok st' →
        (st'.section_id = st.section_id ∨ st'.section_id = st.section_id + 1) ∧
        (st'.subsection_id = st.subsection_id ∨
          st'.subsection_id = st.subsection_id + 1) ∧
        ((d.type = ("f").data ∧ d.fill = some darkFill ∧
            lbb.any (fun b => containsTL d.rect b) = true) →
          st'.section_id = st.section_id + 1 ∧
          st'.subsection_id = st.subsection_id) ∧
        ((d.type = ("f").data ∧ d.fill = some lightFill ∧
            lbb.any (fun b => containsTL d.rect b) = true) →
          st'.subsection_id = st.subsection_id + 1 ∧
          st'.section_id = st.section_id)) ∧
    (∀ fs0 : FS, (initSt fs0).section_id = 0 ∧ (initSt fs0).subsection_id = 0) ∧
    (∀ (cfg : Config) (doc : Doc) (fs0 : FS) (st : ExtractSt),
        extract_questions_from_pdf cfg doc fs0 = .ok st →
        monoPairs (stamps st.questions) = true) := by
  refine ⟨?_, bannerStep_increments, fun fs0 => ⟨rfl, rfl⟩, ?_⟩
  · intro cfg doc page st line st' h
    obtain ⟨l1, l2, _⟩ := processLine_counters cfg doc page st line st' h
    exact ⟨l1, l2⟩
  · intro cfg doc fs0 st h
    have := extract_preserve cfg doc fs0 idsInv
      (fun page st line st' hh hp => processLine_idsInv cfg doc page st line st' hh hp)
      (fun st n hp => hp)
      (fun st hp => idsInv_doSaveImage cfg doc st hp)
      st h ⟨rfl, rfl⟩
    exact this.1

theorem C5_witness :
    ((initSt []).section_id ≤ (initSt []).section_id ∧
      (initSt []).subsection_id ≤ (initSt []).subsection_id) ∧
    ((stBanner.section_id = (initSt []).section_id ∨
        stBanner.section_id = (initSt []).section_id + 1) ∧
      (stBanner.subsection_id = (initSt []).subsection_id ∨
        stBanner.subsection_id = (initSt []).subsection_id + 1) ∧
      ((dBanner.type = ("f").data ∧ dBanner.fill = some darkFill ∧
          [rectLB].any (fun b => containsTL dBanner.rect b) = true) →
        stBanner.section_id = (initSt []).section_id + 1 ∧
        stBanner.subsection_id = (initSt []).subsection_id) ∧
      ((dBanner.type = ("f").data ∧ dBanner.fill = some lightFill ∧
          [rectLB].any (fun b => containsTL dBanner.rect b) = true) →
        stBanner.subsection_id = (initSt []).subsection_id + 1 ∧
        stBanner.section_id = (initSt []).section_id)) ∧
    ((initSt ([] : FS)).section_id = 0 ∧ (initSt ([] : FS)).subsection_id = 0) ∧
    monoPairs (stamps stW1.questions) = true :=
  ⟨C5_ids_monotone.1 cfg7 doc7 page7 (initSt []) (("x").data) (initSt []) rfl,
   C5_ids_monotone.2.1 (("A\nB").data) [rectLB] dBanner (initSt []) stBanner rfl,
   C5_ids_monotone.2.2.1 [],
   C5_ids_monotone.2.2.2 cfg7 docW4 [] stW1 rfl⟩

/-- C3 counterexample: a page with one context line ("Sec", newline,
"Title Seite 1 von 2") and two identical dark filled-only drawings
whose rectangle fully contains the line's bbox (both corners).  The
claim's antecedent holds, and current_section is set to "Sec", but
section_id ends at 2, not 1: the source increments once per matching
drawing, not once per matched line, so "section_id is incremented by
one" is false as stated. -/
theorem C3_counterexample :
    (extract_questions_from_pdf cfg7 doc3 []).toOption.map
        (fun st => (st.section_id, st.current_section)) =
      some (2, some (("Sec").data)) ∧
    (extract_questions_from_pdf cfg7 doc3 []).toOption.map
        (fun st => st.section_id) ≠ some 1 := by decide

/-- C3 amended: for each filled-only drawing whose fill equals the
darker swatch and whose rectangle contains the top-left corner of some
bbox of the line (only the (x0, y0) corner is tested), the step sets
current_section to the second-to-last newline segment of the *stripped*
line text and increments section_id by exactly one — so with several
matching drawings the counter gains one per drawing — and raises
IndexError when the stripped line has fewer than two newline segments;
the analogous lighter-swatch rule updates current_subsection with the
last segment and subsection_id; any non-matching drawing leaves the
state untouched; and every question appended later is stamped with the
then-current section/subsection values and ids. -/
theorem C3_banner_step_behaviour :
    (∀ (line : Str) (lbb : List Rect) (d : Drawing) (st : ExtractSt),
        d.type = ("f").data → d.fill = some darkFill →
        lbb.any (fun b => containsTL d.rect b) = true →
        (2 ≤ (splitNl (strip line)).length →
          bannerStep line lbb d st = .ok { st with
            current_section := some (strip ((splitNl (strip line)).getD
              ((splitNl (strip line)).length - 2) []))
            section_id := st.section_id + 1 }) ∧
        ((splitNl (strip line)).length < 2 →
          bannerStep line lbb d st = .error indexErrMsg)) ∧
    (∀ (line : Str) (lbb : List Rect) (d : Drawing) (st : ExtractSt),
        d.type = ("f").data → d.fill = some lightFill →
        lbb.any (fun b => containsTL d.rect b) = true →
        bannerStep line lbb d st = .ok { st with
          current_subsection := some (strip ((splitNl (strip line)).getD
            ((splitNl (strip line)).length - 1) []))
          subsection_id := st.subsection_id + 1 }) ∧
    (∀ (line : Str) (lbb : List Rect) (d : Drawing) (st : ExtractSt),
        (d.type ≠ ("f").data ∨ (d.fill ≠ some darkFill ∧ d.fill ≠ some lightFill) ∨
          lbb.any (fun b => containsTL d.rect b) = false) →
        bannerStep line lbb d st = .ok st) ∧
    (∀ (st : ExtractSt) (page : Page) (fl body qid : Str) (abb : Option Str),
        (appendQuestion st page fl body qid abb).questions.getLast? = some {
          sectionTxt := st.current_section
          subsectionTxt := st.current_subsection
          question := strip body
          answers := []
          correct := []
          abbildung := abb
          id := strip qid
          section_id := st.section_id
          subsection_id := st.subsection_id
          page := st.page_num - 1
          image_path := none }) := by
  refine ⟨?_, ?_, ?_, ?_⟩
  · intro line lbb d st ht hd ha
    have hne : d.fill ≠ some lightFill := by rw [hd]; decide
    constructor
    · intro hlen
      have hlen' : ¬(splitNl (strip line)).length < 2 := Nat.not_lt.mpr hlen
      simp only [bannerStep, if_pos ht, if_pos hd, if_pos ha, if_neg hlen',
        if_neg hne]
    · intro hlen
      simp only [bannerStep, if_pos ht, if_pos hd, if_pos ha, if_pos hlen]
  · intro line lbb d st ht hl ha
    have hne : d.fill ≠ some darkFill := by rw [hl]; decide
    simp only [bannerStep, if_pos ht, if_neg hne, if_pos hl, if_pos ha]
  · intro line lbb d st hcase
    rcases hcase with ht | ⟨hd, hl⟩ | ha
    · simp only [bannerStep, if_neg ht]
    · by_cases ht : d.type = ("f").data
      · simp only [bannerStep, if_pos ht, if_neg hd, if_neg hl]
      · simp only [bannerStep, if_neg ht]
    · by_cases ht : d.type = ("f").data
      · have ha' : ¬ lbb.any (fun b => containsTL d.rect b) = true := by
          rw [ha]; exact Bool.false_ne_true
        by_cases hd : d.fill = some darkFill
        · have hne : d.fill ≠ some lightFill := by rw [hd]; decide
          simp only [bannerStep, if_pos ht, if_pos hd, if_neg ha', if_neg hne]
        · by_cases hl : d.fill = some lightFill
          · simp only [bannerStep, if_pos ht, if_neg hd, if_pos hl, if_neg ha']
          · simp only [bannerStep, if_pos ht, if_neg hd, if_neg hl]
      · simp only [bannerStep, if_neg ht]
  · intro st page fl body qid abb
    simp only [appendQuestion]
    rw [List.getLast?_concat]

theorem C3_witness :
    bannerStep (("A\nB").data) [rectLB] dBanner (initSt []) = .ok stBanner ∧
    bannerStep (("A\nB").data) [rectLB] dBannerL (initSt []) = .ok stBannerL ∧
    bannerStep (("A\nB").data) [rectLB] ind7 (initSt []) = .ok (initSt []) ∧
    (appendQuestion (initSt []) page7 (("q").data) (("body").data) (("3").data)
        none).questions.getLast? = some qAppendW :=
  ⟨(C3_banner_step_behaviour.1 (("A\nB").data) [rectLB] dBanner (initSt [])
      rfl rfl (by decide)).1 (by decide),
   C3_banner_step_behaviour.2.1 (("A\nB").data) [rectLB] dBannerL (initSt [])
      rfl rfl (by decide),
   C3_banner_step_behaviour.2.2.1 (("A\nB").data) [rectLB] ind7 (initSt [])
      (Or.inl (by decide)),
   C3_banner_step_behaviour.2.2.2 (initSt []) page7 (("q").data) (("body").data)
      (("3").data) none⟩

/-- foldLines leaves the page counter unchanged, so processPage adds
exactly one to it before processing the page's lines. -/
theorem processPage_page_num (cfg : Config) (doc : Doc) (page : Page)
    (st st' : ExtractSt) (h : processPage cfg doc page st = .ok st') :
    st'.page_num = st.page_num + 1 := by
  by_cases hf : hasFooter page.text = true
  · simp only [processPage, if_pos hf] at h
    have := foldLines_preserve cfg doc page
      (fun s => s.page_num = st.page_num + 1)
      (fun s l s' hh hp => by
        show s'.page_num = st.page_num + 1
        rw [(processLine_counters cfg doc page s l s' hh).2.2]
        exact hp)
      (pageLines page.text) _ _ h rfl
    exact this
  · simp only [processPage, if_neg hf] at h
    exact Except.noConfusion h

/-- C10: the page stamp. (1) processLine never changes the 1-based page
counter; (2) each processPage run increments it by exactly one, so
during the lines of the i-th page (0-based) the counter is i+1; (3)
every question is created by appendQuestion carrying page = counter - 1,
the 0-based index of the page its question line is on; (4) the exported
image filename embeds that same q.page value as its "_p" component and
the written path and content are deterministic, the content recording
the page index used for rendering; (5) the saving call site passes
q.page of the current question as the index used to re-load the page
from the document. -/
theorem C10_page_stamp :
    (∀ (cfg : Config) (doc : Doc) (page : Page) (st : ExtractSt) (line : Str)
        (st' : ExtractSt), processLine cfg doc page st line = .ok st' →
        st'.page_num = st.page_num) ∧
    (∀ (cfg : Config) (doc : Doc) (page : Page) (st st' : ExtractSt),
        processPage cfg doc page st = .ok st' →
        st'.page_num = st.page_num + 1) ∧
    (∀ (st : ExtractSt) (page : Page) (fl body qid : Str) (abb : Option Str),
        ∃ q, (appendQuestion st page fl body qid abb).questions =
          st.questions ++ [q] ∧ q.page = st.page_num - 1) ∧
    (∀ (doc : Doc) (qb ab : List Rect) (dir : Str) (pn : Nat) (q : Question)
        (fs : FS), qb ≠ [] → ab ≠ [] → pn < doc.pages.length →
        (∃ rect, save_question_image doc qb ab dir pn q fs =
          (fsSet (dir ++ '/' :: imageFilename q) (pn, rect) fs,
            some (dir ++ '/' :: imageFilename q))) ∧
        ∃ pre, imageFilename q =
          pre ++ ("_p").data ++ natStr q.page ++ (".png").data) ∧
    (∀ (cfg : Config) (doc : Doc) (st : ExtractSt) (q : Question),
        cfg.save_images = true → st.hasCurrent = true →
        st.answer_bboxes ≠ [] → st.question_bbox ≠ [] →
        st.questions.getLast? = some q →
        (doSaveImage cfg doc st).fs =
          (save_question_image doc st.question_bbox st.answer_bboxes
            cfg.images_dir q.page q st.fs).1) := by
  refine ⟨?_, processPage_page_num, ?_, ?_, ?_⟩
  · intro cfg doc page st line st' h
    exact (processLine_counters cfg doc page st line st' h).2.2
  · intro st page fl body qid abb
    exact ⟨_, rfl, rfl⟩
  · intro doc qb ab dir pn q fs hqb hab hpn
    constructor
    · have hguard : ¬(qb = [] ∨ ab = []) := by
        rintro (h | h)
        · exact hqb h
        · exact hab h
      cases hget : doc.pages.get? pn with
      | none =>
        rw [List.get?_eq_none] at hget
        omega
      | some page =>
        simp only [save_question_image, if_neg hguard, hget]
        exact ⟨_, rfl⟩
    · refine ⟨("question_s").data ++ natStr q.section_id ++ ("_ss").data ++
        natStr q.subsection_id ++ ("_q").data ++ q.id, ?_⟩
      simp only [imageFilename, List.append_assoc]
  · intro cfg doc st q hsi hcur hab hqb hgl
    have hc : cfg.save_images ∧ st.hasCurrent ∧ st.answer_bboxes ≠ [] ∧
        st.question_bbox ≠ [] := ⟨hsi, hcur, hab, hqb⟩
    cases hres : (save_question_image doc st.question_bbox st.answer_bboxes
        cfg.images_dir q.page q st.fs).2 with
    | none => simp only [doSaveImage, if_pos hc, hgl, hres]
    | some p => simp only [doSaveImage, if_pos hc, hgl, hres]

theorem C10_witness :
    ((initSt []).page_num = (initSt []).page_num) ∧
    (stW1.page_num = (initSt []).page_num + 1) ∧
    (∃ q, (appendQuestion (initSt []) page7 (("q").data) (("body").data)
        (("3").data) none).questions = (initSt []).questions ++ [q] ∧
      q.page = (initSt []).page_num - 1) ∧
    ((∃ rect, save_question_image docW4 [qrect7] [arectA7] dirW4 0 qW4 [] =
        (fsSet (dirW4 ++ '/' :: imageFilename qW4) (0, rect) [],
          some (dirW4 ++ '/' :: imageFilename qW4))) ∧
      ∃ pre, imageFilename qW4 =
        pre ++ ("_p").data ++ natStr qW4.page ++ (".png").data) ∧
    ((doSaveImage cfgSave docW4 stSave).fs =
      (save_question_image docW4 stSave.question_bbox stSave.answer_bboxes
        cfgSave.images_dir qW4.page qW4 stSave.fs).1) :=
  ⟨C10_page_stamp.1 cfg7 doc7 page7 (initSt []) (("x").data) (initSt []) rfl,
   C10_page_stamp.2.1 cfg7 docW4 pageW4 (initSt []) stW1 rfl,
   C10_page_stamp.2.2.1 (initSt []) page7 (("q").data) (("body").data)
     (("3").data) none,
   C10_page_stamp.2.2.2.1 docW4 [qrect7] [arectA7] dirW4 0 qW4 [] (by decide)
     (by decide) (by decide),
   C10_page_stamp.2.2.2.2 cfgSave docW4 stSave qW4 rfl rfl (by decide)
     (by decide) rfl⟩
